import Mathlib

/-!
Verification development for the profile-matching engine of the
Screening_agents repository (src/agents/profile_matching_agent.py).

The Python code is shallowly embedded below.  Conventions:

* Python strings are Lean `String`; the similarity algorithms work on
  `List Char` (named `Str`).
* Python floats (all scores are in the range 0-100) are modelled as `ℚ`.
* Python dicts that the matching engine reads in insertion order
  (queries, records, field-score maps) are association lists
  `List (key × value)`; lookups use the first matching key, as a Python
  dict (which cannot hold a duplicated key) does.
* Third-party similarity primitives called by the code
  (rapidfuzz.fuzz.ratio / token_sort_ratio / token_set_ratio /
  partial_ratio and difflib.SequenceMatcher.ratio) are modelled from
  their documented algorithms; the three normalizers that wrap the
  dateutil / email_validator / phonenumbers libraries are kept abstract
  as function parameters, since only their Option-shaped result reaches
  the matching logic.
* File and DataFrame I/O (load_processed_data, save_profile) is out of
  scope: the corpus reaches the engine as an association list
  `source name ↦ list of records`, matching the loader's output.
-/

namespace Screening

/-- Character strings as used by the similarity algorithms. -/
abbrev Str := List Char

/-- Lowercase every character (Python str.lower on ASCII data). -/
def lowerStr (s : Str) : Str := s.map Char.toLower

/-- Python str.split(): split on whitespace runs, dropping empty pieces. -/
def splitWordsAux : Str → Str → List Str
  | [], acc => if acc = [] then [] else [acc.reverse]
  | c :: cs, acc =>
    if c.isWhitespace then
      (if acc = [] then splitWordsAux cs [] else acc.reverse :: splitWordsAux cs [])
    else splitWordsAux cs (c :: acc)

/-- Python str.split() with no argument. -/
def splitWords (s : Str) : List Str := splitWordsAux s []

/-- Join a list of words with single spaces (Python " ".join). -/
def joinWords (ws : List Str) : Str := List.intercalate [' '] ws

/-- Does `n` occur at the start of `h`? (helper for substring search). -/
def startsWith : Str → Str → Bool
  | [], _ => true
  | _ :: _, [] => false
  | a :: as, b :: bs => a = b && startsWith as bs

/-- Python substring test `n in h`. -/
def containsSub (n h : Str) : Bool :=
  (List.range (h.length + 1)).any (fun i => startsWith n (h.drop i))

/-- Substring test on whole Lean strings. -/
def strContains (n h : String) : Bool := containsSub n.toList h.toList

/-- 'needle in col.lower()' with the lowering done characterwise. -/
def containsLower (n col : String) : Bool := containsSub n.toList (lowerStr col.toList)

/-- Length of the longest common subsequence (specification version;
exponential, used only in proofs). -/
def lcs : List Char → List Char → Nat
  | [], _ => 0
  | _ :: _, [] => 0
  | a :: as, b :: bs =>
    if a = b then lcs as bs + 1
    else max (lcs (a :: as) bs) (lcs as (b :: bs))

theorem lcs_nil_left (b : List Char) : lcs [] b = 0 := by cases b <;> simp [lcs]

theorem lcs_nil_right (a : List Char) : lcs a [] = 0 := by cases a <;> simp [lcs]

theorem lcs_cons_cons (a : Char) (as : List Char) (b : Char) (bs : List Char) :
    lcs (a :: as) (b :: bs) =
      if a = b then lcs as bs + 1 else max (lcs (a :: as) bs) (lcs as (b :: bs)) := by
  simp [lcs]

theorem lcs_comm (a : List Char) : ∀ b : List Char, lcs a b = lcs b a := by
  induction a with
  | nil => intro b; rw [lcs_nil_left, lcs_nil_right]
  | cons x xs ihx =>
    intro b
    induction b with
    | nil => rw [lcs_nil_left, lcs_nil_right]
    | cons y ys ihy =>
      rw [lcs_cons_cons, lcs_cons_cons]
      by_cases h : x = y
      · simp [h, eq_comm, ihx ys]
      · have h' : ¬ y = x := fun hh => h hh.symm
        simp only [if_neg h, if_neg h']
        rw [ihy, ihx (y :: ys), Nat.max_comm]

theorem lcs_le_left (a : List Char) : ∀ b : List Char, lcs a b ≤ a.length := by
  induction a with
  | nil => intro b; rw [lcs_nil_left]; exact Nat.zero_le _
  | cons x xs ihx =>
    intro b
    induction b with
    | nil => rw [lcs_nil_right]; exact Nat.zero_le _
    | cons y ys ihy =>
      rw [lcs_cons_cons]
      by_cases h : x = y
      · simpa [h] using Nat.succ_le_succ (ihx ys)
      · simp only [if_neg h]
        exact max_le ihy (le_trans (ihx (y :: ys)) (Nat.le_succ _))

theorem lcs_le_right (a b : List Char) : lcs a b ≤ b.length := by
  rw [lcs_comm]; exact lcs_le_left b a

/-- One row of the dynamic-programming table for `lcs`:
given the row for suffixes of `as` against all suffixes of `bs`, produce
the row for `c :: as`. -/
def lcsRow (c : Char) : List Char → List Nat → List Nat
  | [], _ => [0]
  | b :: bs, next =>
    let tail := lcsRow c bs next.tail
    (if c = b then next.tail.headD 0 + 1 else max (tail.headD 0) (next.headD 0)) :: tail

/-- Executable longest-common-subsequence length (row-by-row DP). -/
def lcsDP (a b : List Char) : Nat :=
  (a.foldr (fun c acc => lcsRow c b acc) (List.replicate (b.length + 1) 0)).headD 0

/-- The list `[lcs as bs, lcs as (bs.drop 1), ..., lcs as []]`. -/
def suffLcs (as bs : List Char) : List Nat :=
  (List.range (bs.length + 1)).map (fun j => lcs as (bs.drop j))

theorem suffLcs_nil (as : List Char) : suffLcs as [] = [0] := by
  simp [suffLcs, lcs_nil_right]

theorem suffLcs_cons (as : List Char) (b : Char) (bs : List Char) :
    suffLcs as (b :: bs) = lcs as (b :: bs) :: suffLcs as bs := by
  simp only [suffLcs, List.length_cons]
  rw [List.range_succ_eq_map]
  simp [List.map_map, Function.comp]

theorem suffLcs_ne_nil (as bs : List Char) : suffLcs as bs ≠ [] := by
  cases bs with
  | nil => rw [suffLcs_nil]; simp
  | cons b bs => rw [suffLcs_cons]; simp

theorem suffLcs_head (as bs : List Char) : (suffLcs as bs).headD 0 = lcs as bs := by
  cases bs with
  | nil => rw [suffLcs_nil, lcs_nil_right]; rfl
  | cons b bs => rw [suffLcs_cons]; rfl

theorem lcsRow_spec (c : Char) (as : List Char) : ∀ bs : List Char,
    lcsRow c bs (suffLcs as bs) = suffLcs (c :: as) bs := by
  intro bs
  induction bs with
  | nil => rw [suffLcs_nil, suffLcs_nil]; rfl
  | cons b bs ih =>
    rw [suffLcs_cons, suffLcs_cons]
    simp only [lcsRow, List.tail_cons]
    rw [ih]
    congr 1
    rw [lcs_cons_cons]
    by_cases h : c = b
    · simp only [if_pos h, List.tail_cons]
      rw [suffLcs_head]
    · simp only [if_neg h, List.headD_cons]
      rw [suffLcs_head]

theorem lcsDP_eq (a b : List Char) : lcsDP a b = lcs a b := by
  have base : ∀ bs : List Char, List.replicate (bs.length + 1) 0 = suffLcs [] bs := by
    intro bs
    induction bs with
    | nil => rw [suffLcs_nil]; rfl
    | cons x xs ih =>
      rw [suffLcs_cons, lcs_nil_left, ← ih]
      simp [List.replicate_succ]
  have fold : ∀ as : List Char,
      as.foldr (fun c acc => lcsRow c b acc) (suffLcs [] b) = suffLcs as b := by
    intro as
    induction as with
    | nil => rfl
    | cons c cs ih => simp only [List.foldr, ih, lcsRow_spec]
  rw [lcsDP, base, fold, suffLcs_head]

/-- Python max() over a list of scores (the code only applies it to
nonempty lists; the empty case is mapped to 0). -/
def maxList : List ℚ → ℚ
  | [] => 0
  | x :: xs => xs.foldl max x

theorem foldl_max_le (c : ℚ) : ∀ (l : List ℚ) (x : ℚ), x ≤ c → (∀ y ∈ l, y ≤ c) →
    l.foldl max x ≤ c := by
  intro l
  induction l with
  | nil => intro x hx _; simpa using hx
  | cons y ys ih =>
    intro x hx hall
    simp only [List.foldl]
    exact ih (max x y) (max_le hx (hall y (by simp)))
      (fun z hz => hall z (by simp [hz]))

theorem le_foldl_max : ∀ (l : List ℚ) (x : ℚ), x ≤ l.foldl max x := by
  intro l
  induction l with
  | nil => intro x; simp
  | cons y ys ih =>
    intro x
    simp only [List.foldl]
    exact le_trans (le_max_left x y) (ih (max x y))

theorem maxList_le {l : List ℚ} {c : ℚ} (hc : 0 ≤ c) (h : ∀ x ∈ l, x ≤ c) :
    maxList l ≤ c := by
  cases l with
  | nil => exact hc
  | cons x xs =>
    exact foldl_max_le c xs x (h x (by simp)) (fun y hy => h y (by simp [hy]))

theorem maxList_nonneg {l : List ℚ} (h : ∀ x ∈ l, 0 ≤ x) : 0 ≤ maxList l := by
  cases l with
  | nil => exact le_refl 0
  | cons x xs => exact le_trans (h x (by simp)) (le_foldl_max xs x)

theorem mem_le_foldl_max : ∀ (l : List ℚ) (x y : ℚ), y ∈ l → y ≤ l.foldl max x := by
  intro l
  induction l with
  | nil => intro x y h; cases h
  | cons z zs ih =>
    intro x y h
    rcases List.mem_cons.1 h with h | h
    · subst h
      simp only [List.foldl]
      exact le_trans (le_max_right x y) (le_foldl_max zs (max x y))
    · exact ih (max x z) y h

theorem mem_le_maxList {l : List ℚ} {x : ℚ} (h : x ∈ l) : x ≤ maxList l := by
  cases l with
  | nil => cases h
  | cons y ys =>
    rcases List.mem_cons.1 h with h | h
    · subst h; exact le_foldl_max ys x
    · exact mem_le_foldl_max ys y x h


/-- Model of rapidfuzz fuzz.ratio (third-party library): the normalized
InDel similarity 100 * (1 - dist/(|a|+|b|)), which equals
200*lcs(a,b)/(|a|+|b|); two empty strings score 100. -/
def fuzzRatio (a b : Str) : ℚ :=
  if a.length + b.length = 0 then 100
  else (200 * (lcsDP a b : ℚ)) / ((a.length + b.length : ℕ) : ℚ)

theorem fuzzRatio_comm (a b : Str) : fuzzRatio a b = fuzzRatio b a := by
  unfold fuzzRatio
  rw [lcsDP_eq, lcsDP_eq, lcs_comm, Nat.add_comm a.length]

theorem fuzzRatio_nonneg (a b : Str) : 0 ≤ fuzzRatio a b := by
  unfold fuzzRatio
  split
  · norm_num
  · apply div_nonneg
    · positivity
    · exact_mod_cast Nat.zero_le _

theorem fuzzRatio_le_100 (a b : Str) : fuzzRatio a b ≤ 100 := by
  unfold fuzzRatio
  split
  · exact le_refl _
  · rename_i h
    have hpos : (0 : ℚ) < ((a.length + b.length : ℕ) : ℚ) := by
      exact_mod_cast Nat.pos_of_ne_zero h
    rw [div_le_iff₀ hpos]
    have h1 : lcsDP a b ≤ a.length := by rw [lcsDP_eq]; exact lcs_le_left a b
    have h2 : lcsDP a b ≤ b.length := by rw [lcsDP_eq]; exact lcs_le_right a b
    have : 2 * lcsDP a b ≤ a.length + b.length := by omega
    have hq : (2 * lcsDP a b : ℚ) ≤ ((a.length + b.length : ℕ) : ℚ) := by
      exact_mod_cast this
    calc 200 * (lcsDP a b : ℚ) = 100 * (2 * lcsDP a b : ℚ) := by ring
      _ ≤ 100 * ((a.length + b.length : ℕ) : ℚ) := by
          exact mul_le_mul_of_nonneg_left hq (by norm_num)

/-- Stable insertion into a sorted list: `x` goes in front of the first
element it compares less-or-equal to, so an element inserted later never
jumps in front of an equal one inserted earlier. -/
def insertBy {α : Type} (le : α → α → Bool) (x : α) : List α → List α
  | [] => [x]
  | y :: ys => if le x y then x :: y :: ys else y :: insertBy le x ys

/-- Stable sort by a boolean total preorder.  Python's list.sort and
sorted() are stable, and a stable sort's output is determined by the
input order and the comparison alone, so this insertion sort computes
exactly the list Python produces. -/
def stableSortBy {α : Type} (le : α → α → Bool) : List α → List α
  | [] => []
  | x :: xs => insertBy le x (stableSortBy le xs)

theorem insertBy_perm {α : Type} (le : α → α → Bool) (x : α) :
    ∀ l : List α, (insertBy le x l).Perm (x :: l) := by
  intro l
  induction l with
  | nil => exact List.Perm.refl _
  | cons y ys ih =>
    simp only [insertBy]
    split
    · exact List.Perm.refl _
    · exact (List.Perm.cons y ih).trans (List.Perm.swap x y ys)

theorem stableSortBy_perm {α : Type} (le : α → α → Bool) :
    ∀ l : List α, (stableSortBy le l).Perm l := by
  intro l
  induction l with
  | nil => exact List.Perm.refl _
  | cons x xs ih =>
    simp only [stableSortBy]
    exact (insertBy_perm le x (stableSortBy le xs)).trans (List.Perm.cons x ih)

theorem insertBy_pairwise {α : Type} (le : α → α → Bool)
    (htrans : ∀ a b c, le a b = true → le b c = true → le a c = true)
    (htotal : ∀ a b, le a b = true ∨ le b a = true) (x : α) :
    ∀ l : List α, l.Pairwise (fun a b => le a b = true) →
      (insertBy le x l).Pairwise (fun a b => le a b = true) := by
  intro l
  induction l with
  | nil => intro _; exact List.pairwise_singleton _ _
  | cons y ys ih =>
    intro h
    rcases List.pairwise_cons.1 h with ⟨hy, hys⟩
    simp only [insertBy]
    split
    · rename_i hxy
      refine List.pairwise_cons.2 ⟨?_, h⟩
      intro z hz
      rcases List.mem_cons.1 hz with hz | hz
      · subst hz; exact hxy
      · exact htrans x y z hxy (hy z hz)
    · rename_i hxy
      have hyx : le y x = true := by
        rcases htotal x y with h1 | h1
        · exact absurd h1 hxy
        · exact h1
      refine List.pairwise_cons.2 ⟨?_, ih hys⟩
      intro z hz
      have hz2 := (insertBy_perm le x ys).mem_iff.1 hz
      rcases List.mem_cons.1 hz2 with hz2 | hz2
      · subst hz2; exact hyx
      · exact hy z hz2

theorem stableSortBy_pairwise {α : Type} (le : α → α → Bool)
    (htrans : ∀ a b c, le a b = true → le b c = true → le a c = true)
    (htotal : ∀ a b, le a b = true ∨ le b a = true) :
    ∀ l : List α, (stableSortBy le l).Pairwise (fun a b => le a b = true) := by
  intro l
  induction l with
  | nil => exact List.Pairwise.nil
  | cons x xs ih =>
    simp only [stableSortBy]
    exact insertBy_pairwise le htrans htotal x _ ih

/-- Boolean comparison used to model Python sorted() on strings
(lexicographic by code point). -/
def wordLe (a b : Str) : Bool := decide (a ≤ b)

theorem wordLe_trans (a b c : Str) (h1 : wordLe a b = true) (h2 : wordLe b c = true) :
    wordLe a c = true := by
  unfold wordLe at h1 h2 ⊢
  exact decide_eq_true (le_trans (of_decide_eq_true h1) (of_decide_eq_true h2))

theorem wordLe_total (a b : Str) : wordLe a b = true ∨ wordLe b a = true := by
  unfold wordLe
  rcases le_total a b with h | h
  · exact Or.inl (decide_eq_true h)
  · exact Or.inr (decide_eq_true h)

/-- Python sorted() on a list of words. -/
def sortStrs (ws : List Str) : List Str := stableSortBy wordLe ws

/-- Python sorted(set(s.split())). -/
def sortedUniqueWords (s : Str) : List Str := sortStrs (splitWords s).dedup

/-- Model of rapidfuzz fuzz.token_sort_ratio: fuzz.ratio on the
space-joined sorted token lists. -/
def tokenSortRatio (a b : Str) : ℚ :=
  fuzzRatio (joinWords (sortStrs (splitWords a))) (joinWords (sortStrs (splitWords b)))

theorem tokenSortRatio_comm (a b : Str) : tokenSortRatio a b = tokenSortRatio b a :=
  fuzzRatio_comm _ _

/-- Model of rapidfuzz fuzz.token_set_ratio (the classic fuzzywuzzy
formula): split both sides into sorted unique token sets, build the
intersection string t0 and the two intersection-plus-difference strings
t1, t2, and take the maximum of the three pairwise fuzz.ratio values. -/
def tokenSetRatio (a b : Str) : ℚ :=
  let wa := sortedUniqueWords a
  let wb := sortedUniqueWords b
  let sect := wa.filter (fun w => decide (w ∈ wb))
  let diffAB := wa.filter (fun w => decide (w ∉ wb))
  let diffBA := wb.filter (fun w => decide (w ∉ wa))
  let t0 := joinWords sect
  let t1 := joinWords (sect ++ diffAB)
  let t2 := joinWords (sect ++ diffBA)
  maxList [fuzzRatio t0 t1, fuzzRatio t0 t2, fuzzRatio t1 t2]

/-- Best fuzz.ratio of `needle` against any window of `hay` of the
needle's length. -/
def bestWindow (needle hay : Str) : ℚ :=
  maxList ((List.range (hay.length - needle.length + 1)).map
    (fun i => fuzzRatio needle ((hay.drop i).take needle.length)))

/-- Model of rapidfuzz fuzz.partial_ratio: the shorter string is slid
over the longer one and the best window-wise fuzz.ratio is returned. -/
def windowRatio (a b : Str) : ℚ :=
  if a.length ≤ b.length then bestWindow a b else bestWindow b a

theorem bestWindow_nonneg (n h : Str) : 0 ≤ bestWindow n h := by
  apply maxList_nonneg
  intro x hx
  simp only [List.mem_map] at hx
  obtain ⟨i, _, hi⟩ := hx
  rw [← hi]; exact fuzzRatio_nonneg _ _

theorem bestWindow_le_100 (n h : Str) : bestWindow n h ≤ 100 := by
  apply maxList_le (by norm_num)
  intro x hx
  simp only [List.mem_map] at hx
  obtain ⟨i, _, hi⟩ := hx
  rw [← hi]; exact fuzzRatio_le_100 _ _

theorem windowRatio_nonneg (a b : Str) : 0 ≤ windowRatio a b := by
  unfold windowRatio; split <;> apply bestWindow_nonneg

theorem windowRatio_le_100 (a b : Str) : windowRatio a b ≤ 100 := by
  unfold windowRatio; split <;> apply bestWindow_le_100

theorem tokenSetRatio_nonneg (a b : Str) : 0 ≤ tokenSetRatio a b := by
  unfold tokenSetRatio
  apply maxList_nonneg
  intro x hx
  simp only [List.mem_cons, List.not_mem_nil, or_false] at hx
  rcases hx with h | h | h <;> (rw [h]; exact fuzzRatio_nonneg _ _)

theorem tokenSetRatio_le_100 (a b : Str) : tokenSetRatio a b ≤ 100 := by
  unfold tokenSetRatio
  apply maxList_le (by norm_num)
  intro x hx
  simp only [List.mem_cons, List.not_mem_nil, or_false] at hx
  rcases hx with h | h | h <;> (rw [h]; exact fuzzRatio_le_100 _ _)

theorem tokenSortRatio_nonneg (a b : Str) : 0 ≤ tokenSortRatio a b :=
  fuzzRatio_nonneg _ _

theorem tokenSortRatio_le_100 (a b : Str) : tokenSortRatio a b ≤ 100 :=
  fuzzRatio_le_100 _ _


/-- Length of the common prefix of two character lists. -/
def commonPrefixLen : Str → Str → Nat
  | a :: as, b :: bs => if a = b then commonPrefixLen as bs + 1 else 0
  | _, _ => 0

theorem commonPrefixLen_le_left : ∀ a b : Str, commonPrefixLen a b ≤ a.length := by
  intro a
  induction a with
  | nil => intro b; cases b <;> simp [commonPrefixLen]
  | cons x xs ih =>
    intro b
    cases b with
    | nil => simp [commonPrefixLen]
    | cons y ys =>
      simp only [commonPrefixLen, List.length_cons]
      by_cases h : x = y
      · simpa [h] using Nat.succ_le_succ (ih ys)
      · simp [h]

theorem commonPrefixLen_le_right : ∀ a b : Str, commonPrefixLen a b ≤ b.length := by
  intro a
  induction a with
  | nil => intro b; cases b <;> simp [commonPrefixLen]
  | cons x xs ih =>
    intro b
    cases b with
    | nil => simp [commonPrefixLen]
    | cons y ys =>
      simp only [commonPrefixLen, List.length_cons]
      by_cases h : x = y
      · simpa [h] using Nat.succ_le_succ (ih ys)
      · simp [h]

/-- Scan of all block starts in `b` for a fixed start `i` in `a`
(inner loop of the longest-match search). -/
def lmInner (a b : Str) (i : Nat) (best : Nat × Nat × Nat) : Nat × Nat × Nat :=
  (List.range b.length).foldl (fun best2 j =>
    if best2.2.2 < commonPrefixLen (a.drop i) (b.drop j)
    then (i, j, commonPrefixLen (a.drop i) (b.drop j)) else best2) best

/-- Model of difflib.SequenceMatcher.find_longest_match over whole
strings (Python stdlib; junk handling never fires here because the
autojunk heuristic needs at least 200 characters): the longest matching
block as (start in a, start in b, size), ties broken by the earliest
start in a and then the earliest start in b. -/
def longestMatch (a b : Str) : Nat × Nat × Nat :=
  (List.range a.length).foldl (fun best i => lmInner a b i best) (0, 0, 0)

theorem lmInner_foldl_inv (a b : Str) (i : Nat) :
    ∀ (js : List Nat) (best : Nat × Nat × Nat),
      best.1 + best.2.2 ≤ a.length ∧ best.2.1 + best.2.2 ≤ b.length →
      ((js.foldl (fun best2 j =>
          if best2.2.2 < commonPrefixLen (a.drop i) (b.drop j)
          then (i, j, commonPrefixLen (a.drop i) (b.drop j)) else best2) best)).1 +
        ((js.foldl (fun best2 j =>
          if best2.2.2 < commonPrefixLen (a.drop i) (b.drop j)
          then (i, j, commonPrefixLen (a.drop i) (b.drop j)) else best2) best)).2.2 ≤ a.length ∧
      ((js.foldl (fun best2 j =>
          if best2.2.2 < commonPrefixLen (a.drop i) (b.drop j)
          then (i, j, commonPrefixLen (a.drop i) (b.drop j)) else best2) best)).2.1 +
        ((js.foldl (fun best2 j =>
          if best2.2.2 < commonPrefixLen (a.drop i) (b.drop j)
          then (i, j, commonPrefixLen (a.drop i) (b.drop j)) else best2) best)).2.2 ≤ b.length := by
  intro js
  induction js with
  | nil => intro best h; exact h
  | cons j js ih =>
    intro best h
    simp only [List.foldl]
    apply ih
    split
    · rename_i hlt
      have ha := commonPrefixLen_le_left (a.drop i) (b.drop j)
      have hb := commonPrefixLen_le_right (a.drop i) (b.drop j)
      rw [List.length_drop] at ha hb
      refine ⟨?_, ?_⟩
      · show i + commonPrefixLen (a.drop i) (b.drop j) ≤ a.length
        omega
      · show j + commonPrefixLen (a.drop i) (b.drop j) ≤ b.length
        omega
    · exact h

theorem lmInner_inv (a b : Str) (i : Nat) (best : Nat × Nat × Nat)
    (h : best.1 + best.2.2 ≤ a.length ∧ best.2.1 + best.2.2 ≤ b.length) :
    (lmInner a b i best).1 + (lmInner a b i best).2.2 ≤ a.length ∧
    (lmInner a b i best).2.1 + (lmInner a b i best).2.2 ≤ b.length :=
  lmInner_foldl_inv a b i (List.range b.length) best h

theorem longestMatch_bounds (a b : Str) :
    (longestMatch a b).1 + (longestMatch a b).2.2 ≤ a.length ∧
    (longestMatch a b).2.1 + (longestMatch a b).2.2 ≤ b.length := by
  unfold longestMatch
  have main : ∀ (is : List Nat) (best : Nat × Nat × Nat),
      best.1 + best.2.2 ≤ a.length ∧ best.2.1 + best.2.2 ≤ b.length →
      (is.foldl (fun best i => lmInner a b i best) best).1 +
        (is.foldl (fun best i => lmInner a b i best) best).2.2 ≤ a.length ∧
      (is.foldl (fun best i => lmInner a b i best) best).2.1 +
        (is.foldl (fun best i => lmInner a b i best) best).2.2 ≤ b.length := by
    intro is
    induction is with
    | nil => intro best h; exact h
    | cons i is ih =>
      intro best h
      simp only [List.foldl]
      exact ih _ (lmInner_inv a b i best h)
  exact main (List.range a.length) (0, 0, 0) ⟨Nat.zero_le _, Nat.zero_le _⟩

/-- Total matched size of difflib get_matching_blocks (divide and
conquer around the longest match); fuel bounds the recursion and
|a|+|b| always suffices for the concrete evaluations below. -/
def matchTotal : Nat → Str → Str → Nat
  | 0, _, _ => 0
  | fuel + 1, a, b =>
    let m := longestMatch a b
    if m.2.2 = 0 then 0
    else matchTotal fuel (a.take m.1) (b.take m.2.1) + m.2.2 +
         matchTotal fuel (a.drop (m.1 + m.2.2)) (b.drop (m.2.1 + m.2.2))

theorem matchTotal_le_left : ∀ (fuel : Nat) (a b : Str), matchTotal fuel a b ≤ a.length := by
  intro fuel
  induction fuel with
  | zero => intro a b; simp [matchTotal]
  | succ n ih =>
    intro a b
    simp only [matchTotal]
    split
    · exact Nat.zero_le _
    · have hb := (longestMatch_bounds a b).1
      have h1 := ih (a.take (longestMatch a b).1) (b.take (longestMatch a b).2.1)
      have h2 := ih (a.drop ((longestMatch a b).1 + (longestMatch a b).2.2))
        (b.drop ((longestMatch a b).2.1 + (longestMatch a b).2.2))
      rw [List.length_take] at h1
      rw [List.length_drop] at h2
      omega

theorem matchTotal_le_right : ∀ (fuel : Nat) (a b : Str), matchTotal fuel a b ≤ b.length := by
  intro fuel
  induction fuel with
  | zero => intro a b; simp [matchTotal]
  | succ n ih =>
    intro a b
    simp only [matchTotal]
    split
    · exact Nat.zero_le _
    · have hb := (longestMatch_bounds a b).2
      have h1 := ih (a.take (longestMatch a b).1) (b.take (longestMatch a b).2.1)
      have h2 := ih (a.drop ((longestMatch a b).1 + (longestMatch a b).2.2))
        (b.drop ((longestMatch a b).2.1 + (longestMatch a b).2.2))
      rw [List.length_take] at h1
      rw [List.length_drop] at h2
      omega

/-- Model of difflib.SequenceMatcher(None, a, b).ratio(), scaled to
0-100 as the source multiplies it by 100: 200*M/(|a|+|b|) where M is the
total matched size; two empty strings give ratio 1.0, i.e. 100. -/
def smRatio (a b : Str) : ℚ :=
  if a.length + b.length = 0 then 100
  else (200 * (matchTotal (a.length + b.length) a b : ℚ)) / ((a.length + b.length : ℕ) : ℚ)

theorem smRatio_nonneg (a b : Str) : 0 ≤ smRatio a b := by
  unfold smRatio
  split
  · norm_num
  · apply div_nonneg
    · positivity
    · exact_mod_cast Nat.zero_le _

theorem smRatio_le_100 (a b : Str) : smRatio a b ≤ 100 := by
  unfold smRatio
  split
  · exact le_refl _
  · rename_i h
    have hpos : (0 : ℚ) < ((a.length + b.length : ℕ) : ℚ) := by
      exact_mod_cast Nat.pos_of_ne_zero h
    rw [div_le_iff₀ hpos]
    have h1 := matchTotal_le_left (a.length + b.length) a b
    have h2 := matchTotal_le_right (a.length + b.length) a b
    have : 2 * matchTotal (a.length + b.length) a b ≤ a.length + b.length := by omega
    have hq : (2 * matchTotal (a.length + b.length) a b : ℚ) ≤ ((a.length + b.length : ℕ) : ℚ) := by
      exact_mod_cast this
    calc 200 * (matchTotal (a.length + b.length) a b : ℚ)
        = 100 * (2 * matchTotal (a.length + b.length) a b : ℚ) := by ring
      _ ≤ 100 * ((a.length + b.length : ℕ) : ℚ) :=
          mul_le_mul_of_nonneg_left hq (by norm_num)

/-- The final contents of the Python NAME_PATTERNS['nicknames'] dict
literal.  A Python dict literal keeps a single entry per key with the
last duplicated assignment winning, so sarah→[sally], karen→[kay],
nancy→[ann], lisa→[liz], betty→[bette], helen→[lena], sandra→[sandi],
donna→[dona] and carol→[carolina]. -/
def nicknameTable : List (String × List String) := [
  ("leonardo", ["leo", "leon"]),
  ("leonardo dicaprio", ["leo dicaprio", "leo d", "leonardo d"]),
  ("alexander", ["alex", "al", "sandy"]),
  ("christopher", ["chris", "kit"]),
  ("elizabeth", ["liz", "beth", "betty", "eliza"]),
  ("william", ["will", "bill", "billy"]),
  ("robert", ["rob", "bob", "bobby"]),
  ("richard", ["rick", "dick", "rich"]),
  ("michael", ["mike", "mick", "mickey"]),
  ("daniel", ["dan", "danny"]),
  ("anthony", ["tony", "ant"]),
  ("matthew", ["matt", "matty"]),
  ("andrew", ["andy", "drew"]),
  ("joseph", ["joe", "joey"]),
  ("jonathan", ["jon", "johnny"]),
  ("benjamin", ["ben", "benny"]),
  ("nicholas", ["nick", "nicky"]),
  ("samuel", ["sam", "sammy"]),
  ("david", ["dave", "davy"]),
  ("thomas", ["tom", "tommy"]),
  ("james", ["jim", "jimmy", "jamie"]),
  ("john", ["johnny", "jack"]),
  ("patricia", ["pat", "patty", "trish"]),
  ("jennifer", ["jen", "jenny"]),
  ("linda", ["lin", "lindy"]),
  ("barbara", ["barb", "barbie"]),
  ("susan", ["sue", "susie"]),
  ("jessica", ["jess", "jessie"]),
  ("sarah", ["sally"]),
  ("karen", ["kay"]),
  ("nancy", ["ann"]),
  ("lisa", ["liz"]),
  ("betty", ["bette"]),
  ("helen", ["lena"]),
  ("sandra", ["sandi"]),
  ("donna", ["dona"]),
  ("carol", ["carolina"]),
  ("ruth", ["ruthie"]),
  ("sharon", ["shari"]),
  ("michelle", ["mich", "mickey"]),
  ("laura", ["laurie"]),
  ("kimberly", ["kim"]),
  ("deborah", ["deb", "debbie"]),
  ("dorothy", ["dot", "dotty"]),
  ("maria", ["mary"]),
  ("katherine", ["kate", "katie", "kathy", "kay"]),
  ("margaret", ["maggie", "meg", "peggy"])]

/-- One direction of the nickname lookup of _calculate_nickname_score:
some table entry has its full name contained in `x` (lowercased) and one
of its nicknames contained in `y` (lowercased). -/
def nickHit (x y : Str) : Bool :=
  nicknameTable.any (fun p => containsSub p.1.toList (lowerStr x) &&
    p.2.any (fun n => containsSub n.toList (lowerStr y)))

/-- _calculate_nickname_score: 95 when one side contains a known full
name one of whose nicknames appears in the other side (checked in both
directions), else 0. -/
def nicknameScore (queryName recordName : Str) : ℚ :=
  if nickHit recordName queryName then 95
  else if nickHit queryName recordName then 95
  else 0

theorem nicknameScore_comm (a b : Str) : nicknameScore a b = nicknameScore b a := by
  unfold nicknameScore
  by_cases h1 : nickHit b a = true <;> by_cases h2 : nickHit a b = true <;>
    simp [h1, h2]

theorem nicknameScore_cases (a b : Str) : nicknameScore a b = 0 ∨ nicknameScore a b = 95 := by
  unfold nicknameScore
  split
  · right; rfl
  · split
    · right; rfl
    · left; rfl

theorem nicknameScore_nonneg (a b : Str) : 0 ≤ nicknameScore a b := by
  rcases nicknameScore_cases a b with h | h <;> rw [h] <;> norm_num

theorem nicknameScore_le_100 (a b : Str) : nicknameScore a b ≤ 100 := by
  rcases nicknameScore_cases a b with h | h <;> rw [h] <;> norm_num

/-- _calculate_name_initial_score: 90 when one name carries an initial,
the first words agree at 80 or better (by ratio or nickname) and the
last words start with the same letter. -/
def initialScore (queryName recordName : Str) : ℚ :=
  let qw := splitWords queryName
  let rw := splitWords recordName
  if qw.length < 2 ∨ rw.length < 2 then 0
  else if ¬ (qw.any (fun w => w.length = 1) ∨ rw.any (fun w => w.length = 1)) then 0
  else if 2 ≤ qw.length ∧ 2 ≤ rw.length then
    let firstScore := max (fuzzRatio (qw.headD []) (rw.headD []))
                          (nicknameScore (qw.headD []) (rw.headD []))
    if 80 ≤ firstScore ∧
        ((qw.getLastD []).headD ' ').toLower = ((rw.getLastD []).headD ' ').toLower then 90
    else 0
  else 0

theorem initialScore_comm (a b : Str) : initialScore a b = initialScore b a := by
  unfold initialScore
  by_cases h1 : (splitWords a).length < 2 <;>
    by_cases h2 : (splitWords b).length < 2 <;>
    by_cases h3 : ((splitWords a).any fun w => w.length = 1) = true <;>
    by_cases h4 : ((splitWords b).any fun w => w.length = 1) = true <;>
    simp [h1, h2, h3, h4, Nat.not_lt, and_comm, fuzzRatio_comm, nicknameScore_comm, eq_comm]

theorem initialScore_cases (a b : Str) : initialScore a b = 0 ∨ initialScore a b = 90 := by
  unfold initialScore
  simp only
  split
  · left; rfl
  · split
    · left; rfl
    · split
      · split
        · right; rfl
        · left; rfl
      · left; rfl

theorem initialScore_nonneg (a b : Str) : 0 ≤ initialScore a b := by
  rcases initialScore_cases a b with h | h <;> rw [h] <;> norm_num

theorem initialScore_le_100 (a b : Str) : initialScore a b ≤ 100 := by
  rcases initialScore_cases a b with h | h <;> rw [h] <;> norm_num

/-- _calculate_word_level_score: each word of the query's word set is
matched against the record's word set (best of ratio and nickname), and
the average of these best scores over the query's words is returned.
Note the average runs over the first argument's words only. -/
def wordLevelScore (queryName recordName : Str) : ℚ :=
  let qws := (splitWords queryName).dedup
  let rws := (splitWords recordName).dedup
  if qws = [] ∨ rws = [] then 0
  else
    let wordScores := qws.map (fun q =>
      rws.foldl (fun best r => max best (max (fuzzRatio q r) (nicknameScore q r))) 0)
    if wordScores ≠ [] then wordScores.sum / wordScores.length else 0

theorem le_foldl_maxf (f : Str → ℚ) : ∀ (l : List Str) (x : ℚ),
    x ≤ l.foldl (fun best r => max best (f r)) x := by
  intro l
  induction l with
  | nil => intro x; exact le_refl x
  | cons r rs ih =>
    intro x
    simp only [List.foldl]
    exact le_trans (le_max_left x (f r)) (ih (max x (f r)))

theorem foldl_max_pair_nonneg (q : Str) (rws : List Str) :
    0 ≤ rws.foldl (fun best r => max best (max (fuzzRatio q r) (nicknameScore q r))) 0 :=
  le_foldl_maxf (fun r => max (fuzzRatio q r) (nicknameScore q r)) rws 0

theorem foldl_max_pair_le_100 (q : Str) (rws : List Str) :
    rws.foldl (fun best r => max best (max (fuzzRatio q r) (nicknameScore q r))) 0 ≤ 100 := by
  have : ∀ (x : ℚ), x ≤ 100 →
      rws.foldl (fun best r => max best (max (fuzzRatio q r) (nicknameScore q r))) x ≤ 100 := by
    induction rws with
    | nil => intro x hx; exact hx
    | cons r rs ih =>
      intro x hx
      simp only [List.foldl]
      exact ih _ (max_le hx (max_le (fuzzRatio_le_100 q r) (nicknameScore_le_100 q r)))
  exact this 0 (by norm_num)

theorem wordLevelScore_nonneg (a b : Str) : 0 ≤ wordLevelScore a b := by
  unfold wordLevelScore
  simp only
  split
  · exact le_refl 0
  · split
    · apply div_nonneg
      · apply List.sum_nonneg
        intro x hx
        simp only [List.mem_map] at hx
        obtain ⟨q, _, hq⟩ := hx
        rw [← hq]
        exact foldl_max_pair_nonneg q _
      · positivity
    · exact le_refl 0

theorem wordLevelScore_le_100 (a b : Str) : wordLevelScore a b ≤ 100 := by
  unfold wordLevelScore
  simp only
  split
  · norm_num
  · split
    · rename_i hq hne
      set ws := ((splitWords a).dedup).map (fun q =>
        ((splitWords b).dedup).foldl
          (fun best r => max best (max (fuzzRatio q r) (nicknameScore q r))) 0) with hws
      have hlenpos : 0 < ws.length := by
        rcases List.length_pos.2 hne with h
        exact h
      have hsum : ws.sum ≤ (ws.length : ℚ) * 100 := by
        have := List.sum_le_card_nsmul ws 100 ?_
        · simpa [nsmul_eq_mul] using this
        · intro x hx
          simp only [hws, List.mem_map] at hx
          obtain ⟨q, _, hqx⟩ := hx
          rw [← hqx]
          exact foldl_max_pair_le_100 q _
      have hpos : (0:ℚ) < (ws.length : ℚ) := by exact_mod_cast hlenpos
      rw [div_le_iff₀ hpos]
      calc ws.sum ≤ (ws.length : ℚ) * 100 := hsum
        _ = 100 * (ws.length : ℚ) := by ring
    · norm_num

/-- Suffix and honorific tokens dropped by _normalize_name
(NAME_PATTERNS['suffixes'] and NAME_PATTERNS['prefixes']). -/
def nameSuffixTokens : List String := ["jr", "sr", "ii", "iii", "iv", "v"]

/-- Honorific tokens (the 'prefixes' entry of NAME_PATTERNS). -/
def nameTitleTokens : List String := ["mr", "mrs", "ms", "miss", "dr", "prof"]

/-- _normalize_name: lowercase, collapse whitespace, strip characters
outside lowercase letters / digits / whitespace / hyphen, then drop
suffix and honorific tokens. -/
def normalizeName (name : String) : Str :=
  let collapsed := joinWords (splitWords (lowerStr name.toList))
  let cleaned := collapsed.filter (fun c =>
    c.isLower || c.isDigit || c.isWhitespace || c = '-')
  joinWords ((splitWords cleaned).filter (fun w =>
    !(decide (w ∈ nameSuffixTokens.map String.toList) ||
      decide (w ∈ nameTitleTokens.map String.toList))))

/-- _calculate_name_score: normalize both names, compute the five direct
fuzzy strategies, conditionally add the nickname, name-plus-initial and
word-level scores, and return the maximum. -/
def calculateNameScore (queryName recordName : String) : ℚ :=
  let q := normalizeName queryName
  let r := normalizeName recordName
  if q = [] ∨ r = [] then 0
  else
    let base := [fuzzRatio q r, tokenSortRatio q r, tokenSetRatio q r,
                 windowRatio q r, smRatio q r]
    let nick := nicknameScore q r
    let s1 := if 0 < nick then base ++ [nick] else base
    let ini := initialScore q r
    let s2 := if 0 < ini then s1 ++ [ini] else s1
    let word := wordLevelScore q r
    let s3 := if 0 < word then s2 ++ [word] else s2
    maxList s3

/-- _normalize_id: lowercase, then strip every non-alphanumeric
character. -/
def normalizeId (s : String) : Str :=
  (lowerStr s.toList).filter (fun c => c.isAlpha || c.isDigit)

/-- _calculate_id_score: 100 on exact normalized match, else the best of
ratio, partial ratio, token-sort ratio, and (for equal lengths) the
character-sequence ratio. -/
def calculateIdScore (queryId recordId : String) : ℚ :=
  let q := normalizeId queryId
  let r := normalizeId recordId
  if q = [] ∨ r = [] then 0
  else if q = r then 100
  else
    let base := [fuzzRatio q r, windowRatio q r, tokenSortRatio q r]
    maxList (if q.length = r.length then base ++ [smRatio q r] else base)

/-- _calculate_date_score, with the dateutil-based _normalize_date kept
abstract: `nd` maps a raw date string to the day ordinal of the parsed
date, or none when parsing fails.  Two normalized YYYY-MM-DD strings are
equal exactly when their day ordinals are, and the strptime reparse of a
normalized string always succeeds, so the string-equality shortcut and
the day difference both act on the ordinals. -/
def calculateDateScore (nd : String → Option Int) (queryDate recordDate : String) : ℚ :=
  match nd queryDate, nd recordDate with
  | some dq, some dr =>
    if dq = dr then 100
    else
      let diff := (dq - dr).natAbs
      if diff = 0 then 100
      else if diff ≤ 1 then 90
      else if diff ≤ 7 then 80
      else if diff ≤ 30 then 60
      else if diff ≤ 365 then 40
      else 0
  | _, _ => 0

/-- _calculate_email_score, with the email_validator-based
_normalize_email kept abstract: `ne` returns the normalized email split
at its single @ into local part and domain, or none when invalid. -/
def calculateEmailScore (ne : String → Option (Str × Str))
    (queryEmail recordEmail : String) : ℚ :=
  match ne queryEmail, ne recordEmail with
  | some (ql, qd), some (rl, rd) =>
    if ql = rl ∧ qd = rd then 100
    else fuzzRatio ql rl * (0.4 : ℚ) + fuzzRatio qd rd * (0.6 : ℚ)
  | _, _ => 0

/-- _calculate_phone_score, with the phonenumbers-based _normalize_phone
kept abstract (`np` returns the E.164 string or none): 100 on exact
match, else the best of ratio, partial ratio and a fixed 90 when the
last seven characters agree. -/
def calculatePhoneScore (np : String → Option Str)
    (queryPhone recordPhone : String) : ℚ :=
  match np queryPhone, np recordPhone with
  | some q, some r =>
    if q = r then 100
    else
      let base := [fuzzRatio q r, windowRatio q r]
      maxList (if 7 ≤ q.length ∧ 7 ≤ r.length ∧
          q.drop (q.length - 7) = r.drop (r.length - 7) then base ++ [90] else base)
  | _, _ => 0

theorem mem_cond_append {l : List ℚ} {x y : ℚ} {c : Prop} [Decidable c]
    (h : y ∈ if c then l ++ [x] else l) : y ∈ l ∨ y = x := by
  split at h
  · rcases List.mem_append.1 h with h | h
    · exact Or.inl h
    · exact Or.inr (List.mem_singleton.1 h)
  · exact Or.inl h

theorem calculateNameScore_nonneg (a b : String) : 0 ≤ calculateNameScore a b := by
  unfold calculateNameScore
  simp only
  split
  · exact le_refl 0
  · apply maxList_nonneg
    intro x hx
    rcases mem_cond_append hx with hx | hx
    rotate_left
    · rw [hx]; exact wordLevelScore_nonneg _ _
    rcases mem_cond_append hx with hx | hx
    rotate_left
    · rw [hx]; exact initialScore_nonneg _ _
    rcases mem_cond_append hx with hx | hx
    rotate_left
    · rw [hx]; exact nicknameScore_nonneg _ _
    simp only [List.mem_cons, List.not_mem_nil, or_false] at hx
    rcases hx with h | h | h | h | h <;> rw [h]
    · exact fuzzRatio_nonneg _ _
    · exact tokenSortRatio_nonneg _ _
    · exact tokenSetRatio_nonneg _ _
    · exact windowRatio_nonneg _ _
    · exact smRatio_nonneg _ _

theorem calculateNameScore_le_100 (a b : String) : calculateNameScore a b ≤ 100 := by
  unfold calculateNameScore
  simp only
  split
  · norm_num
  · apply maxList_le (by norm_num)
    intro x hx
    rcases mem_cond_append hx with hx | hx
    rotate_left
    · rw [hx]; exact wordLevelScore_le_100 _ _
    rcases mem_cond_append hx with hx | hx
    rotate_left
    · rw [hx]; exact initialScore_le_100 _ _
    rcases mem_cond_append hx with hx | hx
    rotate_left
    · rw [hx]; exact nicknameScore_le_100 _ _
    simp only [List.mem_cons, List.not_mem_nil, or_false] at hx
    rcases hx with h | h | h | h | h <;> rw [h]
    · exact fuzzRatio_le_100 _ _
    · exact tokenSortRatio_le_100 _ _
    · exact tokenSetRatio_le_100 _ _
    · exact windowRatio_le_100 _ _
    · exact smRatio_le_100 _ _

theorem calculateIdScore_nonneg (a b : String) : 0 ≤ calculateIdScore a b := by
  unfold calculateIdScore
  simp only
  split
  · exact le_refl 0
  · split
    · norm_num
    · apply maxList_nonneg
      intro x hx
      rcases mem_cond_append hx with hx | hx
      rotate_left
      · rw [hx]; exact smRatio_nonneg _ _
      simp only [List.mem_cons, List.not_mem_nil, or_false] at hx
      rcases hx with h | h | h <;> rw [h]
      · exact fuzzRatio_nonneg _ _
      · exact windowRatio_nonneg _ _
      · exact tokenSortRatio_nonneg _ _

theorem calculateIdScore_le_100 (a b : String) : calculateIdScore a b ≤ 100 := by
  unfold calculateIdScore
  simp only
  split
  · norm_num
  · split
    · norm_num
    · apply maxList_le (by norm_num)
      intro x hx
      rcases mem_cond_append hx with hx | hx
      rotate_left
      · rw [hx]; exact smRatio_le_100 _ _
      simp only [List.mem_cons, List.not_mem_nil, or_false] at hx
      rcases hx with h | h | h <;> rw [h]
      · exact fuzzRatio_le_100 _ _
      · exact windowRatio_le_100 _ _
      · exact tokenSortRatio_le_100 _ _

theorem calculateDateScore_nonneg (nd : String → Option Int) (a b : String) :
    0 ≤ calculateDateScore nd a b := by
  unfold calculateDateScore
  rcases nd a with _ | dq <;> rcases nd b with _ | dr
  · norm_num
  · norm_num
  · norm_num
  · simp only
    split
    · norm_num
    · repeat' split
      all_goals norm_num

theorem calculateDateScore_le_100 (nd : String → Option Int) (a b : String) :
    calculateDateScore nd a b ≤ 100 := by
  unfold calculateDateScore
  rcases nd a with _ | dq <;> rcases nd b with _ | dr
  · norm_num
  · norm_num
  · norm_num
  · simp only
    split
    · norm_num
    · repeat' split
      all_goals norm_num

theorem calculateEmailScore_nonneg (ne : String → Option (Str × Str)) (a b : String) :
    0 ≤ calculateEmailScore ne a b := by
  unfold calculateEmailScore
  rcases ne a with _ | ⟨ql, qd⟩ <;> rcases ne b with _ | ⟨rl, rd⟩
  · norm_num
  · norm_num
  · norm_num
  · simp only
    split
    · norm_num
    · have h1 := fuzzRatio_nonneg ql rl
      have h2 := fuzzRatio_nonneg qd rd
      nlinarith

theorem calculateEmailScore_le_100 (ne : String → Option (Str × Str)) (a b : String) :
    calculateEmailScore ne a b ≤ 100 := by
  unfold calculateEmailScore
  rcases ne a with _ | ⟨ql, qd⟩ <;> rcases ne b with _ | ⟨rl, rd⟩
  · norm_num
  · norm_num
  · norm_num
  · simp only
    split
    · norm_num
    · have h1 := fuzzRatio_le_100 ql rl
      have h2 := fuzzRatio_le_100 qd rd
      have h3 := fuzzRatio_nonneg ql rl
      have h4 := fuzzRatio_nonneg qd rd
      nlinarith

theorem calculatePhoneScore_nonneg (np : String → Option Str) (a b : String) :
    0 ≤ calculatePhoneScore np a b := by
  unfold calculatePhoneScore
  rcases np a with _ | q <;> rcases np b with _ | r
  · norm_num
  · norm_num
  · norm_num
  · simp only
    split
    · norm_num
    · apply maxList_nonneg
      intro x hx
      rcases mem_cond_append hx with hx | hx
      rotate_left
      · rw [hx]; norm_num
      simp only [List.mem_cons, List.not_mem_nil, or_false] at hx
      rcases hx with h | h <;> rw [h]
      · exact fuzzRatio_nonneg _ _
      · exact windowRatio_nonneg _ _

theorem calculatePhoneScore_le_100 (np : String → Option Str) (a b : String) :
    calculatePhoneScore np a b ≤ 100 := by
  unfold calculatePhoneScore
  rcases np a with _ | q <;> rcases np b with _ | r
  · norm_num
  · norm_num
  · norm_num
  · simp only
    split
    · norm_num
    · apply maxList_le (by norm_num)
      intro x hx
      rcases mem_cond_append hx with hx | hx
      rotate_left
      · rw [hx]; norm_num
      simp only [List.mem_cons, List.not_mem_nil, or_false] at hx
      rcases hx with h | h <;> rw [h]
      · exact fuzzRatio_le_100 _ _
      · exact windowRatio_le_100 _ _

/-- MATCH_WEIGHTS from ProfileMatchingAgent.__init__. -/
def MATCH_WEIGHTS : List (String × ℚ) :=
  [("national_id", 0.20), ("full_name", 0.40), ("dob", 0.25),
   ("email", 0.10), ("phone", 0.05)]

/-- FUZZY_THRESHOLDS from ProfileMatchingAgent.__init__. -/
def FUZZY_THRESHOLDS : List (String × ℚ) :=
  [("national_id", 85), ("full_name", 75), ("dob", 90), ("email", 95), ("phone", 85)]

/-- MIN_SCORES from ProfileMatchingAgent.__init__. -/
def MIN_SCORES : List (String × ℚ) :=
  [("exact_id", 100), ("strong_match", 85), ("good_match", 75), ("weak_match", 65)]

/-- REQUIRED_MATCH_FIELDS['must_have_one']. -/
def REQUIRED_MUST_HAVE_ONE : List String := ["national_id", "full_name"]

/-- Python dict .get(key, default) on a score table. -/
def getD (m : List (String × ℚ)) (k : String) (d : ℚ) : ℚ := (m.lookup k).getD d

/-- Field-score maps (the field_scores dict: unified field ↦ best score,
zero scores never stored), in insertion order. -/
abbrev FieldScores := List (String × ℚ)

/-- 'field in field_scores'. -/
def fsHas (fs : FieldScores) (f : String) : Bool := (fs.lookup f).isSome

/-- field_scores.get(field, default) / field_scores[field]. -/
def fsGetD (fs : FieldScores) (f : String) (d : ℚ) : ℚ := (fs.lookup f).getD d

/-- field_scores.values(). -/
def fsValues (fs : FieldScores) : List ℚ := fs.map (fun p => p.2)

/-- max(field_scores.values()) if field_scores else 0. -/
def fsMax (fs : FieldScores) : ℚ := maxList (fsValues fs)

/-- max(field_scores.values()) if field_scores else 0 — the first gate
of _meets_minimum_requirements. -/
def queryTruthy (query : List (String × String)) (f : String) : Bool :=
  match query.lookup f with
  | some v => v ≠ ""
  | none => false

/-- _is_strong_match: perfect national_id, or one of the name/dob pairs,
or a near-perfect email with a good second field, or enough high-scoring
fields. -/
def isStrongMatch (fs : FieldScores) : Bool :=
  if fsHas fs "national_id" ∧ fsGetD fs "national_id" 0 = 100 then true
  else if fsHas fs "full_name" ∧ fsHas fs "dob" ∧
      ((85 ≤ fsGetD fs "full_name" 0 ∧ 90 ≤ fsGetD fs "dob" 0) ∨
       (95 ≤ fsGetD fs "full_name" 0 ∧ 80 ≤ fsGetD fs "dob" 0) ∨
       (100 ≤ fsGetD fs "dob" 0 ∧ 80 ≤ fsGetD fs "full_name" 0)) then true
  else if fsHas fs "email" ∧ 98 ≤ fsGetD fs "email" 0 ∧
      ((fsHas fs "full_name" ∧ 75 ≤ fsGetD fs "full_name" 0) ∨
       (fsHas fs "dob" ∧ 85 ≤ fsGetD fs "dob" 0)) then true
  else
    decide (3 ≤ (fsValues fs).countP (fun s => decide (85 ≤ s)) ∨
            2 ≤ (fsValues fs).countP (fun s => decide (95 ≤ s)))

/-- The low-score filter at the end of _meets_minimum_requirements:
reject when more than half of the scored fields are below 50. -/
def lowScoreCheck (fs : FieldScores) : Bool :=
  if 0 < fs.length ∧
      (1/2 : ℚ) < ((fsValues fs).countP (fun s => decide (s < 50)) : ℚ) / (fs.length : ℚ)
  then false else true

/-- _meets_minimum_requirements.  The two lenient full_name/dob branches
return True immediately, skipping the low-score filter. -/
def meetsMinimumRequirements (fs : FieldScores) (query : List (String × String)) : Bool :=
  if fsMax fs < getD MIN_SCORES "weak_match" 0 then false
  else if ¬ (REQUIRED_MUST_HAVE_ONE.any (fun f =>
      fsHas fs f && decide (getD FUZZY_THRESHOLDS f 0 ≤ fsGetD fs f 0))) then false
  else if queryTruthy query "full_name" ∧ queryTruthy query "dob" then
    if 100 ≤ fsGetD fs "dob" 0 ∧ 60 ≤ fsGetD fs "full_name" 0 then true
    else if 90 ≤ fsGetD fs "full_name" 0 ∧ 60 ≤ fsGetD fs "dob" 0 then true
    else if fsGetD fs "full_name" 0 < 65 ∨ fsGetD fs "dob" 0 < 65 then false
    else lowScoreCheck fs
  else lowScoreCheck fs

/-- One row of one source table, as the loader hands it to the matcher:
column name ↦ cell rendered as a string (NaN becomes ""). -/
abbrev Record := List (String × String)

/-- The search query: unified field ↦ raw value, in insertion order. -/
abbrev Query := List (String × String)

/-- One source's schema mapping file: the enhanced field_mappings table
and the legacy mappings table, each source column ↦ unified field. -/
structure SchemaMapping where
  fieldMappings : List (String × String)
  legacyMappings : List (String × String)
deriving DecidableEq, Repr

/-- _get_field_mapping: all source columns that map to a unified field;
the enhanced table is preferred when nonempty, and a missing source
yields no columns. -/
def getFieldMapping (mappings : List (String × SchemaMapping)) (source : String)
    (field : String) : List String :=
  match mappings.lookup source with
  | none => []
  | some sm =>
    if sm.fieldMappings ≠ [] then
      (sm.fieldMappings.filter (fun p => p.2 = field)).map (fun p => p.1)
    else
      (sm.legacyMappings.filter (fun p => p.2 = field)).map (fun p => p.1)

/-- 'source_field in record'. -/
def recordHas (r : Record) (k : String) : Bool := (r.lookup k).isSome

/-- record.keys(). -/
def recordKeys (r : Record) : List String := r.map (fun p => p.1)

/-- The heuristic name-column fallback of _calculate_match_score. -/
def nameColumns (r : Record) : List String :=
  (recordKeys r).filter (fun col =>
    (containsLower "full_name" col || containsLower "name" col) &&
    !(containsLower "source_name" col))

/-- The heuristic ID-column fallback. -/
def idColumns (r : Record) : List String :=
  (recordKeys r).filter (fun col =>
    (containsLower "id" col || containsLower "customer_id" col ||
     containsLower "national_id" col) &&
    !(containsLower "source_name" col))

/-- The heuristic date-column fallback. -/
def dateColumns (r : Record) : List String :=
  (recordKeys r).filter (fun col =>
    containsLower "dob" col || containsLower "birth" col ||
    containsLower "date_of_birth" col)

/-- The heuristic email-column fallback. -/
def emailColumns (r : Record) : List String :=
  (recordKeys r).filter (fun col => containsLower "email" col)

/-- The heuristic phone-column fallback. -/
def phoneColumns (r : Record) : List String :=
  (recordKeys r).filter (fun col =>
    containsLower "phone" col || containsLower "mobile" col ||
    containsLower "telephone" col)

/-- The heuristic address-column fallback (present in the source even
though the query loop never reaches it: fields outside MATCH_WEIGHTS are
skipped before the fallback search). -/
def addressColumns (r : Record) : List String :=
  (recordKeys r).filter (fun col => containsLower "address" col)

/-- The source-column resolution of _calculate_match_score for one query
field: mapped columns that exist in the record, else the direct field
name, else the per-field heuristic column search, else the original
mapped list (which the record lookups then skip). -/
def determineSourceFields (mappings : List (String × SchemaMapping)) (source : String)
    (field : String) (r : Record) : List String :=
  let sourceFields := getFieldMapping mappings source field
  let existing := sourceFields.filter (fun sf => recordHas r sf)
  if existing ≠ [] then existing
  else if recordHas r field then [field]
  else if field = "full_name" then
    (if nameColumns r ≠ [] then nameColumns r else sourceFields)
  else if field = "national_id" then
    (if idColumns r ≠ [] then idColumns r else sourceFields)
  else if field = "dob" then
    (if dateColumns r ≠ [] then dateColumns r else sourceFields)
  else if field = "email" then
    (if emailColumns r ≠ [] then emailColumns r else sourceFields)
  else if field = "phone" then
    (if phoneColumns r ≠ [] then phoneColumns r else sourceFields)
  else if field = "address" then
    (if addressColumns r ≠ [] then addressColumns r else sourceFields)
  else sourceFields

/-- max(score, x) if 'score' in locals() else x — the Python local
`score` modelled as an Option. -/
def updMax (o : Option ℚ) (x : ℚ) : ℚ :=
  match o with
  | some s => max s x
  | none => x

/-- The name_parts accumulation inside the full_name branch: nonempty
stripped values of the name columns, first occurrence kept. -/
def buildNameParts (sourceFields : List String) (r : Record) : List String :=
  sourceFields.foldl (fun parts col =>
    match r.lookup col with
    | some v =>
      if v ≠ "" then
        (if v.trim ≠ "" ∧ v.trim ∉ parts then parts ++ [v.trim] else parts)
      else parts
    | none => parts) []

/-- The body of the inner source-field loop of _calculate_match_score.
State: (field_score so far, the Python local `score`, which survives
between iterations and even between query fields). -/
def processSourceField (nd : String → Option Int) (ne : String → Option (Str × Str))
    (np : String → Option Str) (field value : String) (sourceFields : List String)
    (r : Record) (st : ℚ × Option ℚ) (sf : String) : ℚ × Option ℚ :=
  match r.lookup sf with
  | none => st
  | some rv =>
    if field = "national_id" then
      let s := calculateIdScore value rv
      (max st.1 s, some s)
    else if field = "full_name" then
      let sv1 :=
        if strContains "full_name" sf ∧ 1 < sourceFields.length then
          (if 1 < (buildNameParts sourceFields r).length then
            some (updMax st.2
              (calculateNameScore value (String.intercalate " " (buildNameParts sourceFields r))))
          else st.2)
        else st.2
      let s := updMax sv1 (calculateNameScore value rv)
      (max st.1 s, some s)
    else if field = "dob" then
      let s := calculateDateScore nd value rv
      (max st.1 s, some s)
    else if field = "email" then
      let s := calculateEmailScore ne value rv
      (max st.1 s, some s)
    else if field = "phone" then
      let s := calculatePhoneScore np value rv
      (max st.1 s, some s)
    else
      let s := fuzzRatio (lowerStr value.toList) (lowerStr rv.toList)
      (max st.1 s, some s)

/-- One iteration of the query-field loop of _calculate_match_score:
skip fields without a weight, resolve source columns, take the best
per-column score, and store it when positive. -/
def processField (nd : String → Option Int) (ne : String → Option (Str × Str))
    (np : String → Option Str) (mappings : List (String × SchemaMapping))
    (source : String) (r : Record) (st : FieldScores × Option ℚ)
    (fv : String × String) : FieldScores × Option ℚ :=
  if (MATCH_WEIGHTS.lookup fv.1).isNone then st
  else
    let sourceFields := determineSourceFields mappings source fv.1 r
    if sourceFields = [] then st
    else
      let res := sourceFields.foldl
        (processSourceField nd ne np fv.1 fv.2 sourceFields r) (0, st.2)
      (if 0 < res.1 then st.1 ++ [(fv.1, res.1)] else st.1, res.2)

/-- The weighted-average block at the end of _calculate_match_score:
total_weight and weighted_sum accumulate with MATCH_WEIGHTS.get(field, 0)
and the division is guarded, returning 0 when total_weight is 0. -/
def weightedAverage (fieldScores : FieldScores) : ℚ :=
  let acc := fieldScores.foldl
    (fun (acc : ℚ × ℚ) p =>
      (acc.1 + getD MATCH_WEIGHTS p.1 0, acc.2 + p.2 * getD MATCH_WEIGHTS p.1 0))
    (0, 0)
  if 0 < acc.1 then acc.2 / acc.1 else 0

/-- _calculate_match_score: iterate the query fields, building the
field_scores map (positive best scores only), then return the guarded
weighted average together with the map. -/
def calculateMatchScore (nd : String → Option Int) (ne : String → Option (Str × Str))
    (np : String → Option Str) (mappings : List (String × SchemaMapping))
    (query : Query) (r : Record) (source : String) : ℚ × FieldScores :=
  let res := query.foldl (processField nd ne np mappings source r) ([], none)
  if res.1 = [] then (0, res.1) else (weightedAverage res.1, res.1)

/-- One accepted row with the scoring annotations that find_matches
writes into the record dict (match_score, field_scores, is_strong_match,
meets_requirements). -/
structure ScoredRecord where
  record : Record
  matchScore : ℚ
  fieldScores : FieldScores
  isStrong : Bool
  meetsReq : Bool
deriving DecidableEq, Repr

/-- The per-record scoring step of find_matches. -/
def scoreRecord (nd : String → Option Int) (ne : String → Option (Str × Str))
    (np : String → Option Str) (mappings : List (String × SchemaMapping))
    (query : Query) (source : String) (r : Record) : ScoredRecord :=
  let res := calculateMatchScore nd ne np mappings query r source
  ⟨r, res.1, res.2, isStrongMatch res.2, meetsMinimumRequirements res.2 query⟩

/-- The acceptance chain of find_matches: strong match, or perfect
national_id, or (good overall score and minimum requirements and at
least two fields at the good-match floor). -/
def acceptMatch (sr : ScoredRecord) : Bool :=
  if sr.isStrong then true
  else if fsHas sr.fieldScores "national_id" ∧ fsGetD sr.fieldScores "national_id" 0 = 100
    then true
  else if getD MIN_SCORES "good_match" 0 ≤ sr.matchScore ∧ sr.meetsReq then
    decide (2 ≤ (fsValues sr.fieldScores).countP
      (fun s => decide (getD MIN_SCORES "good_match" 0 ≤ s)))
  else false

/-- Strict order on Bool with False < True, as Python compares bools. -/
def boolLt (a b : Bool) : Bool := !a && b

/-- Python tuple comparison for the three-part find_matches sort key
(is_strong_match, match_score, meets_requirements). -/
def tripleLe (x y : Bool × ℚ × Bool) : Bool :=
  boolLt x.1 y.1 || (decide (x.1 = y.1) &&
    (decide (x.2.1 < y.2.1) || (decide (x.2.1 = y.2.1) &&
      (boolLt x.2.2 y.2.2 || decide (x.2.2 = y.2.2)))))

/-- list.sort(key=(is_strong, score, meets), reverse=True): a record may
precede another when its key is greater or equal, and the stable sort
keeps the original order of equal keys. -/
def rankLe (a b : ScoredRecord) : Bool :=
  tripleLe (b.isStrong, b.matchScore, b.meetsReq) (a.isStrong, a.matchScore, a.meetsReq)

/-- Per-source post-processing of find_matches: stable descending sort,
then keep all strong matches plus two, or just the top three. -/
def capSource (sms : List ScoredRecord) : List ScoredRecord :=
  let sorted := stableSortBy rankLe sms
  let strongCount := (sorted.filter (fun m => m.isStrong)).length
  let maxResults := if 0 < strongCount then strongCount + 2 else 3
  sorted.take maxResults

/-- find_matches: for each source score every record, keep accepted ones
in their original order, sort and cap; a source with no accepted record
is left out of the result map. -/
def findMatches (nd : String → Option Int) (ne : String → Option (Str × Str))
    (np : String → Option Str) (mappings : List (String × SchemaMapping))
    (query : Query) (data : List (String × List Record)) :
    List (String × List ScoredRecord) :=
  data.filterMap (fun sd =>
    let sms := (sd.2.map (scoreRecord nd ne np mappings query sd.1)).filter acceptMatch
    if sms = [] then none else some (sd.1, capSource sms))

/-- The match_quality sub-dictionary of the merged profile. -/
structure MatchQuality where
  isStrong : Bool
  overallScore : ℚ
  fieldScores : FieldScores
deriving DecidableEq, Repr

/-- The merged profile: the best record's fields (the scoring keys are
popped off), plus sources, match_count, match_quality and the merge
timestamp. -/
structure MergedProfile where
  base : Record
  sources : List String
  matchCount : Nat
  quality : MatchQuality
  mergedAt : Int
deriving DecidableEq, Repr

/-- Python tuple comparison for the two-part merge sort key. -/
def pairLe (x y : Bool × ℚ) : Bool :=
  boolLt x.1 y.1 || (decide (x.1 = y.1) && decide (x.2 ≤ y.2))

/-- sort(key=(is_strong, score), reverse=True) on merge candidates. -/
def mergeLe (a b : ScoredRecord) : Bool :=
  pairLe (b.isStrong, b.matchScore) (a.isStrong, a.matchScore)

/-- merge_matches: flatten all retained matches in source order, stable
sort by (is_strong, score) descending and take the head as the base
profile; the empty case models Python's bare {}. -/
def mergeMatches (found : List (String × List ScoredRecord)) (now : Int) : MergedProfile :=
  let allRecords := (found.map (fun p => p.2)).flatten
  match stableSortBy mergeLe allRecords with
  | [] => ⟨[], [], 0, ⟨false, 0, []⟩, now⟩
  | best :: _ =>
    ⟨best.record, found.map (fun p => p.1), allRecords.length,
     ⟨best.isStrong, best.matchScore, best.fieldScores⟩, now⟩

/-- One entry of the individual_matches list: the record with
meets_requirements still inside, the originating source, and the
match_info block (score, field scores, strong flag). -/
structure IndivMatch where
  record : Record
  meetsReq : Bool
  sourceName : String
  matchScore : ℚ
  fieldScores : FieldScores
  isStrong : Bool
deriving DecidableEq, Repr

/-- sort(key=(is_strong, score), reverse=True) on individual matches. -/
def indivLe (a b : IndivMatch) : Bool :=
  pairLe (b.isStrong, b.matchScore) (a.isStrong, a.matchScore)

/-- The full return value of find_and_return_all_matches. -/
structure SearchResult where
  mergedProfile : MergedProfile
  individualMatches : List IndivMatch
  totalMatches : Nat
  sourcesMatched : Nat
  sourceBreakdown : List (String × Nat)
  hasStrongMatches : Bool
  highestScore : ℚ
  queryUsed : Query
  searchTimestamp : Int
deriving DecidableEq, Repr

/-- find_and_return_all_matches, with the corpus already loaded (file
discovery is the loader's job) and datetime.now() passed in as `now`:
None when no data was loaded, None again when no source kept a match,
otherwise the merged profile, ranked individual matches and summary. -/
def findAndReturnAllMatches (nd : String → Option Int) (ne : String → Option (Str × Str))
    (np : String → Option Str) (mappings : List (String × SchemaMapping))
    (data : List (String × List Record)) (query : Query) (now : Int) :
    Option SearchResult :=
  if data = [] then none
  else
    let found := findMatches nd ne np mappings query data
    if found = [] then none
    else
      let indiv := (found.map (fun p => p.2.map (fun m =>
        (⟨m.record, m.meetsReq, p.1, m.matchScore, m.fieldScores, m.isStrong⟩ : IndivMatch)))).flatten
      let sorted := stableSortBy indivLe indiv
      some ⟨mergeMatches found now, sorted, indiv.length, found.length,
            found.map (fun p => (p.1, p.2.length)),
            sorted.any (fun m => m.isStrong),
            maxList (sorted.map (fun m => m.matchScore)),
            query, now⟩

theorem matchWeight_nonneg (f : String) : 0 ≤ getD MATCH_WEIGHTS f 0 := by
  unfold getD MATCH_WEIGHTS
  simp only [List.lookup]
  repeat' split
  all_goals simp [Option.getD]
  all_goals norm_num

theorem getD_zero_of_lookup_none {f : String} (h : MATCH_WEIGHTS.lookup f = none) :
    getD MATCH_WEIGHTS f 0 = 0 := by
  unfold getD
  rw [h]
  rfl

theorem weightedAverage_fold_inv :
    ∀ (fs : FieldScores) (acc : ℚ × ℚ),
      (∀ p ∈ fs, 0 ≤ p.2 ∧ p.2 ≤ 100) →
      0 ≤ acc.1 → 0 ≤ acc.2 → acc.2 ≤ 100 * acc.1 →
      0 ≤ (fs.foldl (fun (acc : ℚ × ℚ) p =>
          (acc.1 + getD MATCH_WEIGHTS p.1 0, acc.2 + p.2 * getD MATCH_WEIGHTS p.1 0)) acc).1 ∧
      0 ≤ (fs.foldl (fun (acc : ℚ × ℚ) p =>
          (acc.1 + getD MATCH_WEIGHTS p.1 0, acc.2 + p.2 * getD MATCH_WEIGHTS p.1 0)) acc).2 ∧
      (fs.foldl (fun (acc : ℚ × ℚ) p =>
          (acc.1 + getD MATCH_WEIGHTS p.1 0, acc.2 + p.2 * getD MATCH_WEIGHTS p.1 0)) acc).2 ≤
        100 * (fs.foldl (fun (acc : ℚ × ℚ) p =>
          (acc.1 + getD MATCH_WEIGHTS p.1 0, acc.2 + p.2 * getD MATCH_WEIGHTS p.1 0)) acc).1 := by
  intro fs
  induction fs with
  | nil => intro acc _ h1 h2 h3; exact ⟨h1, h2, h3⟩
  | cons p ps ih =>
    intro acc hall h1 h2 h3
    simp only [List.foldl]
    have hp := hall p (by simp)
    have hw := matchWeight_nonneg p.1
    refine ih _ (fun q hq => hall q (by simp [hq])) ?_ ?_ ?_
    · simp only; positivity
    · simp only
      have : 0 ≤ p.2 * getD MATCH_WEIGHTS p.1 0 := mul_nonneg hp.1 hw
      linarith
    · simp only
      have : p.2 * getD MATCH_WEIGHTS p.1 0 ≤ 100 * getD MATCH_WEIGHTS p.1 0 :=
        mul_le_mul_of_nonneg_right hp.2 hw
      linarith

theorem weightedAverage_bounds (fs : FieldScores)
    (h : ∀ p ∈ fs, 0 ≤ p.2 ∧ p.2 ≤ 100) :
    0 ≤ weightedAverage fs ∧ weightedAverage fs ≤ 100 := by
  unfold weightedAverage
  have inv := weightedAverage_fold_inv fs (0, 0) h (le_refl 0) (le_refl 0) (by norm_num)
  set acc := fs.foldl (fun (acc : ℚ × ℚ) p =>
    (acc.1 + getD MATCH_WEIGHTS p.1 0, acc.2 + p.2 * getD MATCH_WEIGHTS p.1 0)) (0, 0) with hacc
  simp only
  split
  · rename_i hpos
    constructor
    · exact div_nonneg inv.2.1 inv.1
    · rw [div_le_iff₀ hpos]
      calc acc.2 ≤ 100 * acc.1 := inv.2.2
        _ = 100 * acc.1 := rfl
  · exact ⟨le_refl 0, by norm_num⟩

theorem weightedAverage_zero_weights (fs : FieldScores)
    (h : ∀ p ∈ fs, MATCH_WEIGHTS.lookup p.1 = none) : weightedAverage fs = 0 := by
  unfold weightedAverage
  have inv : ∀ (l : FieldScores) (acc : ℚ × ℚ), (∀ p ∈ l, MATCH_WEIGHTS.lookup p.1 = none) →
      (l.foldl (fun (acc : ℚ × ℚ) p =>
        (acc.1 + getD MATCH_WEIGHTS p.1 0, acc.2 + p.2 * getD MATCH_WEIGHTS p.1 0)) acc) = acc := by
    intro l
    induction l with
    | nil => intro acc _; rfl
    | cons p ps ih =>
      intro acc hall
      simp only [List.foldl]
      rw [getD_zero_of_lookup_none (hall p (by simp))]
      simp only [add_zero, mul_zero]
      exact ih _ (fun q hq => hall q (by simp [hq]))
  rw [inv fs (0, 0) h]
  norm_num

theorem weightedAverage_nil : weightedAverage [] = 0 := by
  unfold weightedAverage
  norm_num

/-- The invariant carried by the Python local `score` and the running
field_score: both stay inside [0, 100]. -/
def scoreStInv (st : ℚ × Option ℚ) : Prop :=
  (0 ≤ st.1 ∧ st.1 ≤ 100) ∧ (∀ s, st.2 = some s → 0 ≤ s ∧ s ≤ 100)

theorem updMax_bounds {o : Option ℚ} {x : ℚ}
    (ho : ∀ s, o = some s → 0 ≤ s ∧ s ≤ 100) (hx : 0 ≤ x ∧ x ≤ 100) :
    0 ≤ updMax o x ∧ updMax o x ≤ 100 := by
  unfold updMax
  cases o with
  | none => exact hx
  | some s =>
    have hs := ho s rfl
    exact ⟨le_trans hs.1 (le_max_left s x), max_le hs.2 hx.2⟩

theorem processSourceField_inv (nd : String → Option Int) (ne : String → Option (Str × Str))
    (np : String → Option Str) (field value : String) (sourceFields : List String)
    (r : Record) (st : ℚ × Option ℚ) (sf : String) (h : scoreStInv st) :
    scoreStInv (processSourceField nd ne np field value sourceFields r st sf) := by
  unfold processSourceField
  rcases r.lookup sf with _ | rv
  · exact h
  simp only
  split
  · refine ⟨⟨le_trans h.1.1 (le_max_left _ _),
      max_le h.1.2 (calculateIdScore_le_100 _ _)⟩, ?_⟩
    intro s hs
    cases hs
    exact ⟨calculateIdScore_nonneg _ _, calculateIdScore_le_100 _ _⟩
  split
  · have hsv1 : ∀ s, (if strContains "full_name" sf ∧ 1 < sourceFields.length then
        (if 1 < (buildNameParts sourceFields r).length then
          some (updMax st.2
            (calculateNameScore value (String.intercalate " " (buildNameParts sourceFields r))))
        else st.2)
      else st.2) = some s → 0 ≤ s ∧ s ≤ 100 := by
      intro s hs
      split at hs
      · split at hs
        · cases hs
          exact updMax_bounds h.2 ⟨calculateNameScore_nonneg _ _, calculateNameScore_le_100 _ _⟩
        · exact h.2 s hs
      · exact h.2 s hs
    have hnew := updMax_bounds (x := calculateNameScore value rv) hsv1
      ⟨calculateNameScore_nonneg value rv, calculateNameScore_le_100 value rv⟩
    refine ⟨⟨le_trans h.1.1 (le_max_left _ _), max_le h.1.2 hnew.2⟩, ?_⟩
    intro s hs
    cases hs
    exact hnew
  split
  · refine ⟨⟨le_trans h.1.1 (le_max_left _ _),
      max_le h.1.2 (calculateDateScore_le_100 _ _ _)⟩, ?_⟩
    intro s hs
    cases hs
    exact ⟨calculateDateScore_nonneg _ _ _, calculateDateScore_le_100 _ _ _⟩
  split
  · refine ⟨⟨le_trans h.1.1 (le_max_left _ _),
      max_le h.1.2 (calculateEmailScore_le_100 _ _ _)⟩, ?_⟩
    intro s hs
    cases hs
    exact ⟨calculateEmailScore_nonneg _ _ _, calculateEmailScore_le_100 _ _ _⟩
  split
  · refine ⟨⟨le_trans h.1.1 (le_max_left _ _),
      max_le h.1.2 (calculatePhoneScore_le_100 _ _ _)⟩, ?_⟩
    intro s hs
    cases hs
    exact ⟨calculatePhoneScore_nonneg _ _ _, calculatePhoneScore_le_100 _ _ _⟩
  · refine ⟨⟨le_trans h.1.1 (le_max_left _ _),
      max_le h.1.2 (fuzzRatio_le_100 _ _)⟩, ?_⟩
    intro s hs
    cases hs
    exact ⟨fuzzRatio_nonneg _ _, fuzzRatio_le_100 _ _⟩

theorem sourceFields_fold_inv (nd : String → Option Int) (ne : String → Option (Str × Str))
    (np : String → Option Str) (field value : String) (sourceFields : List String)
    (r : Record) :
    ∀ (l : List String) (st : ℚ × Option ℚ), scoreStInv st →
      scoreStInv (l.foldl (processSourceField nd ne np field value sourceFields r) st) := by
  intro l
  induction l with
  | nil => intro st h; exact h
  | cons sf sfs ih =>
    intro st h
    simp only [List.foldl]
    exact ih _ (processSourceField_inv nd ne np field value sourceFields r st sf h)

/-- The invariant of the query-field fold: all stored field scores are
positive and at most 100, and the surviving `score` local is bounded. -/
def fieldFoldInv (st : FieldScores × Option ℚ) : Prop :=
  (∀ p ∈ st.1, 0 < p.2 ∧ p.2 ≤ 100) ∧ (∀ s, st.2 = some s → 0 ≤ s ∧ s ≤ 100)

theorem processField_inv (nd : String → Option Int) (ne : String → Option (Str × Str))
    (np : String → Option Str) (mappings : List (String × SchemaMapping))
    (source : String) (r : Record) (st : FieldScores × Option ℚ)
    (fv : String × String) (h : fieldFoldInv st) :
    fieldFoldInv (processField nd ne np mappings source r st fv) := by
  unfold processField
  split
  · exact h
  dsimp only
  split
  · exact h
  · have hres := sourceFields_fold_inv nd ne np fv.1 fv.2
      (determineSourceFields mappings source fv.1 r) r
      (determineSourceFields mappings source fv.1 r) (0, st.2)
      ⟨⟨le_refl 0, by norm_num⟩, h.2⟩
    constructor
    · intro p hp
      simp only at hp
      split at hp
      · rename_i hpos
        rcases List.mem_append.1 hp with hp | hp
        · exact h.1 p hp
        · rw [List.mem_singleton.1 hp]
          exact ⟨hpos, hres.1.2⟩
      · exact h.1 p hp
    · exact hres.2

theorem calculateMatchScore_fold_inv (nd : String → Option Int)
    (ne : String → Option (Str × Str)) (np : String → Option Str)
    (mappings : List (String × SchemaMapping)) (source : String) (r : Record) :
    ∀ (query : Query) (st : FieldScores × Option ℚ), fieldFoldInv st →
      fieldFoldInv (query.foldl (processField nd ne np mappings source r) st) := by
  intro query
  induction query with
  | nil => intro st h; exact h
  | cons fv fvs ih =>
    intro st h
    simp only [List.foldl]
    exact ih _ (processField_inv nd ne np mappings source r st fv h)

theorem calculateMatchScore_fieldScores_bounds (nd : String → Option Int)
    (ne : String → Option (Str × Str)) (np : String → Option Str)
    (mappings : List (String × SchemaMapping)) (query : Query) (r : Record)
    (source : String) :
    ∀ p ∈ (calculateMatchScore nd ne np mappings query r source).2, 0 < p.2 ∧ p.2 ≤ 100 := by
  intro p hp
  have hinv := calculateMatchScore_fold_inv nd ne np mappings source r query ([], none)
    ⟨fun q hq => absurd hq (List.not_mem_nil q), fun s hs => by cases hs⟩
  unfold calculateMatchScore at hp
  simp only at hp
  split at hp
  · rename_i hemp
    rw [hemp] at hp
    cases hp
  · exact hinv.1 p hp

theorem tripleLe_total (x y : Bool × ℚ × Bool) : tripleLe x y = true ∨ tripleLe y x = true := by
  obtain ⟨x1, x2, x3⟩ := x
  obtain ⟨y1, y2, y3⟩ := y
  unfold tripleLe boolLt
  simp only
  rcases lt_trichotomy x2 y2 with h | h | h
  · cases x1 <;> cases y1 <;> simp [h, h.ne, h.ne', lt_asymm h]
  · subst h
    cases x1 <;> cases y1 <;> cases x3 <;> cases y3 <;> simp [lt_irrefl]
  · cases x1 <;> cases y1 <;> simp [h, h.ne, h.ne', lt_asymm h]

theorem tripleLe_trans (x y z : Bool × ℚ × Bool) (h1 : tripleLe x y = true)
    (h2 : tripleLe y z = true) : tripleLe x z = true := by
  obtain ⟨x1, x2, x3⟩ := x
  obtain ⟨y1, y2, y3⟩ := y
  obtain ⟨z1, z2, z3⟩ := z
  unfold tripleLe boolLt at h1 h2 ⊢
  simp only [Bool.or_eq_true, Bool.and_eq_true, Bool.not_eq_true', decide_eq_true_eq] at h1 h2 ⊢
  rcases h1 with ⟨hx, hy⟩ | ⟨hxy, h1⟩
  · rcases h2 with ⟨hy2, hz⟩ | ⟨hyz, h2⟩
    · rw [hy] at hy2; cases hy2
    · exact Or.inl ⟨hx, hyz ▸ hy⟩
  · rcases h2 with ⟨hy2, hz⟩ | ⟨hyz, h2⟩
    · exact Or.inl ⟨hxy.trans hy2, hz⟩
    · refine Or.inr ⟨hxy.trans hyz, ?_⟩
      rcases h1 with hlt | ⟨heq, h1⟩
      · rcases h2 with hlt2 | ⟨heq2, _⟩
        · exact Or.inl (lt_trans hlt hlt2)
        · exact Or.inl (heq2 ▸ hlt)
      · rcases h2 with hlt2 | ⟨heq2, h2⟩
        · exact Or.inl (heq ▸ hlt2)
        · refine Or.inr ⟨heq.trans heq2, ?_⟩
          rcases h1 with ⟨hx3, hy3⟩ | h13
          · rcases h2 with ⟨hy32, hz3⟩ | h23
            · exact Or.inl ⟨hx3, hz3⟩
            · exact Or.inl ⟨hx3, h23 ▸ hy3⟩
          · rcases h2 with ⟨hy32, hz3⟩ | h23
            · exact Or.inl ⟨h13.trans hy32, hz3⟩
            · exact Or.inr (h13.trans h23)

theorem rankLe_trans (a b c : ScoredRecord) (h1 : rankLe a b = true)
    (h2 : rankLe b c = true) : rankLe a c = true := by
  unfold rankLe at h1 h2 ⊢
  exact tripleLe_trans _ _ _ h2 h1

theorem rankLe_total (a b : ScoredRecord) : rankLe a b = true ∨ rankLe b a = true := by
  unfold rankLe
  rcases tripleLe_total (b.isStrong, b.matchScore, b.meetsReq)
    (a.isStrong, a.matchScore, a.meetsReq) with h | h
  · exact Or.inl h
  · exact Or.inr h

theorem rankLe_strong {x y : ScoredRecord} (h : rankLe x y = true)
    (hy : y.isStrong = true) : x.isStrong = true := by
  rcases hx : x.isStrong
  · unfold rankLe tripleLe boolLt at h
    rw [hx, hy] at h
    simp at h
  · rfl

/-- In a list sorted descending by the find_matches key, the strong
matches form a prefix: the list is its strong part followed by its
non-strong part. -/
theorem sorted_strong_decomp :
    ∀ l : List ScoredRecord, l.Pairwise (fun a b => rankLe a b = true) →
      l = l.filter (fun m => m.isStrong) ++ l.filter (fun m => !m.isStrong) := by
  intro l
  induction l with
  | nil => intro _; rfl
  | cons x rest ih =>
    intro h
    rcases List.pairwise_cons.1 h with ⟨hx, hrest⟩
    rcases hxs : x.isStrong
    · have hnostrong : ∀ y ∈ rest, y.isStrong = false := by
        intro y hy
        rcases hys : y.isStrong
        · rfl
        · have := rankLe_strong (hx y hy) hys
          rw [hxs] at this; cases this
      have hfsrest : rest.filter (fun m => m.isStrong) = [] := by
        rw [List.filter_eq_nil_iff]
        intro y hy
        simp [hnostrong y hy]
      have hfnrest : rest.filter (fun m => !m.isStrong) = rest := by
        rw [List.filter_eq_self]
        intro y hy
        simp [hnostrong y hy]
      rw [List.filter_cons, List.filter_cons]
      simp only [hxs, Bool.not_false, if_pos, if_false, hfsrest, hfnrest]
      simp
    · rw [List.filter_cons, List.filter_cons]
      simp only [hxs, Bool.not_true, if_pos, if_false]
      simp only [List.cons_append]
      congr 1
      exact ih hrest

/-- The sorted per-source match list, its strong part and its non-strong
part. -/
theorem capSource_spec (sms : List ScoredRecord) :
    (0 < ((stableSortBy rankLe sms).filter (fun m => m.isStrong)).length →
      capSource sms = (stableSortBy rankLe sms).filter (fun m => m.isStrong) ++
        ((stableSortBy rankLe sms).filter (fun m => !m.isStrong)).take 2) ∧
    (((stableSortBy rankLe sms).filter (fun m => m.isStrong)).length = 0 →
      capSource sms = (stableSortBy rankLe sms).take 3) := by
  have hsorted := stableSortBy_pairwise rankLe rankLe_trans rankLe_total sms
  have hdec := sorted_strong_decomp _ hsorted
  constructor
  · intro hpos
    unfold capSource
    dsimp only
    rw [if_pos hpos]
    set s := stableSortBy rankLe sms with hs
    set A := List.filter (fun m => m.isStrong) s with hA
    set B := List.filter (fun m => !m.isStrong) s with hB
    rw [hdec]
    exact List.take_append 2
  · intro hzero
    unfold capSource
    dsimp only
    rw [hzero]
    simp

theorem capSource_length (sms : List ScoredRecord) :
    (capSource sms).length =
      min (if 0 < ((stableSortBy rankLe sms).filter (fun m => m.isStrong)).length
           then ((stableSortBy rankLe sms).filter (fun m => m.isStrong)).length + 2
           else 3)
          sms.length := by
  unfold capSource
  simp only [List.length_take]
  congr 1
  exact (stableSortBy_perm rankLe sms).length_eq

theorem sorted_filter_strong_length (sms : List ScoredRecord) :
    ((stableSortBy rankLe sms).filter (fun m => m.isStrong)).length =
      (sms.filter (fun m => m.isStrong)).length :=
  ((stableSortBy_perm rankLe sms).filter (fun m => m.isStrong)).length_eq

/-- Everything find_and_return_all_matches returns except the two
datetime.now() timestamps. -/
def timeFree (r : SearchResult) :
    (Record × List String × Nat × MatchQuality) × List IndivMatch × Nat × Nat ×
      List (String × Nat) × Bool × ℚ × Query :=
  ((r.mergedProfile.base, r.mergedProfile.sources, r.mergedProfile.matchCount,
    r.mergedProfile.quality), r.individualMatches, r.totalMatches, r.sourcesMatched,
   r.sourceBreakdown, r.hasStrongMatches, r.highestScore, r.queryUsed)

theorem mergeMatches_timeless (found : List (String × List ScoredRecord)) (t1 t2 : Int) :
    (mergeMatches found t1).base = (mergeMatches found t2).base ∧
    (mergeMatches found t1).sources = (mergeMatches found t2).sources ∧
    (mergeMatches found t1).matchCount = (mergeMatches found t2).matchCount ∧
    (mergeMatches found t1).quality = (mergeMatches found t2).quality := by
  unfold mergeMatches
  dsimp only
  rcases hsort : stableSortBy mergeLe ((List.map (fun p => p.2) found).flatten)
    with _ | ⟨b, rest⟩ <;>
    rw [hsort] <;> exact ⟨rfl, rfl, rfl, rfl⟩

theorem fsHas_getD_iff (fs : FieldScores) (f : String) :
    (fsHas fs f = true ∧ fsGetD fs f 0 = 100) ↔ fs.lookup f = some 100 := by
  unfold fsHas fsGetD
  rcases h : fs.lookup f with _ | x <;> simp

theorem goodMatchFloor : getD MIN_SCORES "good_match" 0 = 75 := by decide

/-- C1: for every field-score set, a national_id field score of exactly
100 forces the strong-match classification, regardless of the values or
absence of every other field score. -/
theorem c1_perfect_id_always_strong (fs : FieldScores)
    (h : fs.lookup "national_id" = some 100) : isStrongMatch fs = true := by
  unfold isStrongMatch
  rw [if_pos ((fsHas_getD_iff fs "national_id").2 h)]

/-- C2: a record scored during a search pass is accepted exactly when it
is a strong match, or its national_id field score is exactly 100, or its
overall score reaches the good-match floor 75 while the
minimum-requirements gate passes and at least two fields score at least
75; find_matches keeps exactly the accepted records of a source (before
the per-source cap). -/
theorem c2_accept_iff (nd : String → Option Int) (ne : String → Option (Str × Str))
    (np : String → Option Str) (mappings : List (String × SchemaMapping))
    (query : Query) (source : String) (r : Record) :
    (acceptMatch (scoreRecord nd ne np mappings query source r) = true ↔
      (isStrongMatch (scoreRecord nd ne np mappings query source r).fieldScores = true ∨
       (scoreRecord nd ne np mappings query source r).fieldScores.lookup "national_id" =
         some 100 ∨
       (75 ≤ (scoreRecord nd ne np mappings query source r).matchScore ∧
        meetsMinimumRequirements
          (scoreRecord nd ne np mappings query source r).fieldScores query = true ∧
        2 ≤ (fsValues (scoreRecord nd ne np mappings query source r).fieldScores).countP
          (fun s => decide (75 ≤ s))))) ∧
    ∀ (recs : List Record) (sr : ScoredRecord),
      sr ∈ (recs.map (scoreRecord nd ne np mappings query source)).filter acceptMatch ↔
        (sr ∈ recs.map (scoreRecord nd ne np mappings query source) ∧ acceptMatch sr = true) := by
  constructor
  · set sr := scoreRecord nd ne np mappings query source r with hsr
    have hstrong : sr.isStrong = isStrongMatch sr.fieldScores := rfl
    have hmeets : sr.meetsReq = meetsMinimumRequirements sr.fieldScores query := rfl
    unfold acceptMatch
    rw [goodMatchFloor, hstrong, hmeets]
    by_cases h1 : isStrongMatch sr.fieldScores = true
    · simp [h1]
    · rw [if_neg h1]
      by_cases h2 : fsHas sr.fieldScores "national_id" = true ∧
          fsGetD sr.fieldScores "national_id" 0 = 100
      · rw [if_pos h2]
        simp [h1, (fsHas_getD_iff sr.fieldScores "national_id").1 h2]
      · rw [if_neg h2]
        have h2' : ¬ sr.fieldScores.lookup "national_id" = some 100 := by
          intro hl
          exact h2 ((fsHas_getD_iff sr.fieldScores "national_id").2 hl)
        by_cases h3 : 75 ≤ sr.matchScore ∧
            meetsMinimumRequirements sr.fieldScores query = true
        · rw [if_pos h3]
          simp [h1, h2', h3.1, h3.2]
        · rw [if_neg h3]
          constructor
          · intro hfalse; simp at hfalse
          · intro hor
            rcases hor with hc | hc | hc
            · exact absurd hc h1
            · exact absurd hc h2'
            · exact absurd ⟨hc.1, hc.2.1⟩ h3
  · intro recs sr
    simp [List.mem_filter]

/-- C4: the overall score computed by _calculate_match_score always lies
in [0, 100]; the field-score map holds exactly the positive per-field
scores; the overall score equals the guarded weighted average
sum(score*weight)/sum(weight) over that map; and an empty map forces
overall score 0. -/
theorem c4_overall_score_bounds (nd : String → Option Int) (ne : String → Option (Str × Str))
    (np : String → Option Str) (mappings : List (String × SchemaMapping))
    (query : Query) (r : Record) (source : String) :
    0 ≤ (calculateMatchScore nd ne np mappings query r source).1 ∧
    (calculateMatchScore nd ne np mappings query r source).1 ≤ 100 ∧
    (∀ p ∈ (calculateMatchScore nd ne np mappings query r source).2, 0 < p.2) ∧
    (calculateMatchScore nd ne np mappings query r source).1 =
      weightedAverage (calculateMatchScore nd ne np mappings query r source).2 ∧
    ((calculateMatchScore nd ne np mappings query r source).2 = [] →
      (calculateMatchScore nd ne np mappings query r source).1 = 0) := by
  have hfs := calculateMatchScore_fieldScores_bounds nd ne np mappings query r source
  have havg := weightedAverage_bounds (calculateMatchScore nd ne np mappings query r source).2
    (fun p hp => ⟨le_of_lt (hfs p hp).1, (hfs p hp).2⟩)
  have heq : (calculateMatchScore nd ne np mappings query r source).1 =
      weightedAverage (calculateMatchScore nd ne np mappings query r source).2 := by
    unfold calculateMatchScore
    dsimp only
    split
    · rename_i hemp
      rw [hemp, weightedAverage_nil]
    · rfl
  refine ⟨?_, ?_, fun p hp => (hfs p hp).1, heq, ?_⟩
  · rw [heq]; exact havg.1
  · rw [heq]; exact havg.2
  · intro hemp
    rw [heq, hemp, weightedAverage_nil]

/-- C10: MATCH_WEIGHTS.get(field, 0) returns weight 0 for every field
outside the weight table, a field-score map made only of such fields
accumulates total weight 0, and the guarded division then returns
overall score 0 instead of raising a division error; in particular a
lone heuristic address score yields 0. -/
theorem c10_zero_weight_safe :
    (∀ f : String, MATCH_WEIGHTS.lookup f = none → getD MATCH_WEIGHTS f 0 = 0) ∧
    (∀ fs : FieldScores, (∀ p ∈ fs, MATCH_WEIGHTS.lookup p.1 = none) →
      weightedAverage fs = 0) ∧
    weightedAverage [("address", 80)] = 0 := by
  refine ⟨fun f h => getD_zero_of_lookup_none h, fun fs h => weightedAverage_zero_weights fs h, ?_⟩
  exact weightedAverage_zero_weights [("address", 80)]
    (by intro p hp; simp only [List.mem_singleton] at hp; rw [hp]; rfl)

/-- C6: whenever both date strings normalize successfully, the date
score is the fixed bucket function of the absolute day difference
(0 → 100, ≤1 → 90, ≤7 → 80, ≤30 → 60, ≤365 → 40, else 0); equal dates
score 100, next-day dates 90, and dates 400 days apart 0. -/
theorem c6_date_buckets (nd : String → Option Int) (q r : String) (dq dr : Int)
    (hq : nd q = some dq) (hr : nd r = some dr) :
    calculateDateScore nd q r =
      (if (dq - dr).natAbs = 0 then 100
       else if (dq - dr).natAbs ≤ 1 then 90
       else if (dq - dr).natAbs ≤ 7 then 80
       else if (dq - dr).natAbs ≤ 30 then 60
       else if (dq - dr).natAbs ≤ 365 then 40
       else (0 : ℚ)) ∧
    (dq = dr → calculateDateScore nd q r = 100) ∧
    (dr = dq + 1 → calculateDateScore nd q r = 90) ∧
    (dr = dq + 400 → calculateDateScore nd q r = 0) := by
  have hmain : calculateDateScore nd q r =
      (if (dq - dr).natAbs = 0 then 100
       else if (dq - dr).natAbs ≤ 1 then 90
       else if (dq - dr).natAbs ≤ 7 then 80
       else if (dq - dr).natAbs ≤ 30 then 60
       else if (dq - dr).natAbs ≤ 365 then 40
       else (0 : ℚ)) := by
    unfold calculateDateScore
    simp only [hq, hr]
    by_cases heq : dq = dr
    · rw [if_pos heq]
      have : (dq - dr).natAbs = 0 := by omega
      rw [if_pos this]
    · rw [if_neg heq]
  refine ⟨hmain, ?_, ?_, ?_⟩
  · intro h
    rw [hmain]
    have : (dq - dr).natAbs = 0 := by omega
    rw [if_pos this]
  · intro h
    rw [hmain]
    have h0 : ¬ (dq - dr).natAbs = 0 := by omega
    have h1 : (dq - dr).natAbs ≤ 1 := by omega
    rw [if_neg h0, if_pos h1]
  · intro h
    rw [hmain]
    have h0 : ¬ (dq - dr).natAbs = 0 := by omega
    have h1 : ¬ (dq - dr).natAbs ≤ 1 := by omega
    have h7 : ¬ (dq - dr).natAbs ≤ 7 := by omega
    have h30 : ¬ (dq - dr).natAbs ≤ 30 := by omega
    have h365 : ¬ (dq - dr).natAbs ≤ 365 := by omega
    rw [if_neg h0, if_neg h1, if_neg h7, if_neg h30, if_neg h365]

theorem sortStrs_pairwise (ws : List Str) :
    (sortStrs ws).Pairwise (fun a b => wordLe a b = true) :=
  stableSortBy_pairwise wordLe wordLe_trans wordLe_total ws

theorem sortStrs_perm (ws : List Str) : (sortStrs ws).Perm ws := stableSortBy_perm wordLe ws

theorem sortedUniqueWords_nodup (s : Str) : (sortedUniqueWords s).Nodup :=
  ((sortStrs_perm (splitWords s).dedup).nodup_iff).2 (List.nodup_dedup _)

theorem sortedUniqueWords_pairwise (s : Str) :
    (sortedUniqueWords s).Pairwise (fun a b => wordLe a b = true) :=
  sortStrs_pairwise (splitWords s).dedup

theorem sorted_nodup_ext (l₁ l₂ : List Str)
    (hs₁ : l₁.Pairwise (fun a b => wordLe a b = true))
    (hs₂ : l₂.Pairwise (fun a b => wordLe a b = true))
    (hn₁ : l₁.Nodup) (hn₂ : l₂.Nodup)
    (hmem : ∀ x, x ∈ l₁ ↔ x ∈ l₂) : l₁ = l₂ := by
  have hperm := (List.perm_ext_iff_of_nodup hn₁ hn₂).2 hmem
  have hanti : IsAntisymm Str (fun a b : Str => a ≤ b) := ⟨fun a b h1 h2 => le_antisymm h1 h2⟩
  exact @List.eq_of_perm_of_sorted Str (fun a b : Str => a ≤ b) hanti l₁ l₂ hperm
    (hs₁.imp fun h => of_decide_eq_true h) (hs₂.imp fun h => of_decide_eq_true h)

theorem maxList3_swap (x y z : ℚ) : maxList [x, y, z] = maxList [y, x, z] := by
  simp [maxList, List.foldl, max_comm x y]

theorem tokenSetRatio_comm (a b : Str) : tokenSetRatio a b = tokenSetRatio b a := by
  unfold tokenSetRatio
  dsimp only
  have hsect : (sortedUniqueWords a).filter (fun w => decide (w ∈ sortedUniqueWords b)) =
      (sortedUniqueWords b).filter (fun w => decide (w ∈ sortedUniqueWords a)) := by
    apply sorted_nodup_ext
    · exact (sortedUniqueWords_pairwise a).filter _
    · exact (sortedUniqueWords_pairwise b).filter _
    · exact (sortedUniqueWords_nodup a).filter _
    · exact (sortedUniqueWords_nodup b).filter _
    · intro x
      simp only [List.mem_filter, decide_eq_true_eq]
      exact ⟨fun h => ⟨h.2, h.1⟩, fun h => ⟨h.2, h.1⟩⟩
  rw [← hsect]
  set S := (sortedUniqueWords a).filter (fun w => decide (w ∈ sortedUniqueWords b)) with hS
  set D1 := (sortedUniqueWords a).filter (fun w => decide (w ∉ sortedUniqueWords b)) with hD1
  set D2 := (sortedUniqueWords b).filter (fun w => decide (w ∉ sortedUniqueWords a)) with hD2
  rw [maxList3_swap (fuzzRatio (joinWords S) (joinWords (S ++ D2)))
    (fuzzRatio (joinWords S) (joinWords (S ++ D1)))
    (fuzzRatio (joinWords (S ++ D2)) (joinWords (S ++ D1)))]
  rw [fuzzRatio_comm (joinWords (S ++ D2)) (joinWords (S ++ D1))]

theorem maxList_singleton (x : ℚ) : maxList [x] = x := rfl

theorem bestWindow_eq_len (a b : Str) (h : a.length = b.length) :
    bestWindow a b = fuzzRatio a b := by
  unfold bestWindow
  rw [h, Nat.sub_self]
  rw [show List.range (0 + 1) = [0] from rfl]
  simp only [List.map_cons, List.map_nil, List.drop_zero]
  rw [List.take_length, maxList_singleton]

theorem windowRatio_comm (a b : Str) : windowRatio a b = windowRatio b a := by
  unfold windowRatio
  rcases lt_trichotomy a.length b.length with h | h | h
  · rw [if_pos (le_of_lt h), if_neg (not_le.2 h)]
  · rw [if_pos (le_of_eq h), if_pos (le_of_eq h.symm)]
    rw [bestWindow_eq_len a b h, bestWindow_eq_len b a h.symm, fuzzRatio_comm]
  · rw [if_neg (not_le.2 h), if_pos (le_of_lt h)]

/-- C3 amended: the minimum-requirements gate conjoins the weak-match
floor and the required-field check with a third clause that is NOT the
plain low-score filter: when the query supplies both full_name and dob,
the two lenient pairs (dob ≥ 100 with name ≥ 60, or name ≥ 90 with
dob ≥ 60) accept immediately and bypass the more-than-half-below-50
filter, which only runs in the remaining name ≥ 65 and dob ≥ 65 case or
when the query pair is absent. -/
theorem c3_amended_gate (fs : FieldScores) (query : List (String × String)) :
    meetsMinimumRequirements fs query = true ↔
      (getD MIN_SCORES "weak_match" 0 ≤ fsMax fs ∧
       REQUIRED_MUST_HAVE_ONE.any (fun f => fsHas fs f &&
         decide (getD FUZZY_THRESHOLDS f 0 ≤ fsGetD fs f 0)) = true ∧
       ((queryTruthy query "full_name" = true ∧ queryTruthy query "dob" = true ∧
          ((100 ≤ fsGetD fs "dob" 0 ∧ 60 ≤ fsGetD fs "full_name" 0) ∨
           (90 ≤ fsGetD fs "full_name" 0 ∧ 60 ≤ fsGetD fs "dob" 0) ∨
           (65 ≤ fsGetD fs "full_name" 0 ∧ 65 ≤ fsGetD fs "dob" 0 ∧
             lowScoreCheck fs = true))) ∨
        (¬ (queryTruthy query "full_name" = true ∧ queryTruthy query "dob" = true) ∧
          lowScoreCheck fs = true))) := by
  unfold meetsMinimumRequirements
  by_cases hmax : fsMax fs < getD MIN_SCORES "weak_match" 0
  · rw [if_pos hmax]
    simp only [Bool.false_eq_true, false_iff]
    intro hc
    exact absurd hc.1 (not_le.2 hmax)
  · rw [if_neg hmax]
    by_cases hany : REQUIRED_MUST_HAVE_ONE.any (fun f => fsHas fs f &&
        decide (getD FUZZY_THRESHOLDS f 0 ≤ fsGetD fs f 0)) = true
    · rw [if_neg (not_not_intro hany)]
      by_cases hq : queryTruthy query "full_name" = true ∧ queryTruthy query "dob" = true
      · rw [if_pos hq]
        by_cases hL1 : 100 ≤ fsGetD fs "dob" 0 ∧ 60 ≤ fsGetD fs "full_name" 0
        · rw [if_pos hL1]
          simp only [true_iff]
          exact ⟨not_lt.1 hmax, hany, Or.inl ⟨hq.1, hq.2, Or.inl hL1⟩⟩
        · rw [if_neg hL1]
          by_cases hL2 : 90 ≤ fsGetD fs "full_name" 0 ∧ 60 ≤ fsGetD fs "dob" 0
          · rw [if_pos hL2]
            simp only [true_iff]
            exact ⟨not_lt.1 hmax, hany, Or.inl ⟨hq.1, hq.2, Or.inr (Or.inl hL2)⟩⟩
          · rw [if_neg hL2]
            by_cases hrej : fsGetD fs "full_name" 0 < 65 ∨ fsGetD fs "dob" 0 < 65
            · rw [if_pos hrej]
              simp only [Bool.false_eq_true, false_iff]
              intro hc
              rcases hc.2.2 with ⟨_, _, hpair⟩ | ⟨hnq, _⟩
              · rcases hpair with hp | hp | hp
                · exact hL1 hp
                · exact hL2 hp
                · rcases hrej with hr | hr
                  · exact absurd hp.1 (not_le.2 hr)
                  · exact absurd hp.2.1 (not_le.2 hr)
              · exact hnq hq
            · rw [if_neg hrej]
              rcases not_or.1 hrej with ⟨hn65, hd65⟩
              constructor
              · intro hlow
                exact ⟨not_lt.1 hmax, hany,
                  Or.inl ⟨hq.1, hq.2, Or.inr (Or.inr ⟨not_lt.1 hn65, not_lt.1 hd65, hlow⟩)⟩⟩
              · intro hc
                rcases hc.2.2 with ⟨_, _, hpair⟩ | ⟨hnq, _⟩
                · rcases hpair with hp | hp | hp
                  · exact absurd hp hL1
                  · exact absurd hp hL2
                  · exact hp.2.2
                · exact absurd hq hnq
      · rw [if_neg hq]
        constructor
        · intro hlow
          exact ⟨not_lt.1 hmax, hany, Or.inr ⟨hq, hlow⟩⟩
        · intro hc
          rcases hc.2.2 with ⟨hq1, hq2, _⟩ | ⟨_, hlow⟩
          · exact absurd ⟨hq1, hq2⟩ hq
          · exact hlow
    · rw [if_pos hany]
      simp only [Bool.false_eq_true, false_iff]
      intro hc
      exact hany hc.2.1

/-- C5: after the stable descending per-source sort the strong matches
form a prefix, and the cap retains exactly the strong matches plus the
next two non-strong ones when any strong match exists, else exactly the
top three; in particular a source with ten accepted matches returns
exactly three results whether it holds one strong match or none. -/
theorem c5_per_source_cap (sms : List ScoredRecord) :
    (1 ≤ ((stableSortBy rankLe sms).filter (fun m => m.isStrong)).length →
      capSource sms = (stableSortBy rankLe sms).filter (fun m => m.isStrong) ++
        ((stableSortBy rankLe sms).filter (fun m => !m.isStrong)).take 2) ∧
    (((stableSortBy rankLe sms).filter (fun m => m.isStrong)).length = 0 →
      capSource sms = (stableSortBy rankLe sms).take 3) ∧
    (sms.length = 10 → (sms.filter (fun m => m.isStrong)).length = 1 →
      (capSource sms).length = 3) ∧
    (sms.length = 10 → (sms.filter (fun m => m.isStrong)).length = 0 →
      (capSource sms).length = 3) := by
  refine ⟨fun h => (capSource_spec sms).1 (by omega), (capSource_spec sms).2, ?_, ?_⟩
  · intro hlen hstrong
    rw [capSource_length, sorted_filter_strong_length, hstrong, hlen]
    norm_num
  · intro hlen hstrong
    rw [capSource_length, sorted_filter_strong_length, hstrong, hlen]
    norm_num

section

attribute [local semireducible] Rat.mul Rat.inv Rat.add Rat.sub Rat.ofScientific

set_option maxRecDepth 8000

/-- C7 amended: among the whole-input strategies of the name scorer, the
direct InDel ratio, the token-sort and token-set ratios, the
sliding-window (partial) ratio, the nickname score and the
name-plus-initial score are symmetric; the SequenceMatcher strategy is
NOT — its ratio on tide/diet is 25 one way and 50 the other — and
neither is the word-level average, which runs over its first argument's
words only (see the recorded counterexample), so the full name score is
asymmetric through those two strategies. -/
theorem c7_amended_component_symmetry :
    (∀ a b : Str, fuzzRatio a b = fuzzRatio b a) ∧
    (∀ a b : Str, tokenSortRatio a b = tokenSortRatio b a) ∧
    (∀ a b : Str, tokenSetRatio a b = tokenSetRatio b a) ∧
    (∀ a b : Str, windowRatio a b = windowRatio b a) ∧
    (∀ a b : Str, nicknameScore a b = nicknameScore b a) ∧
    (∀ a b : Str, initialScore a b = initialScore b a) ∧
    smRatio "tide".toList "diet".toList = 25 ∧
    smRatio "diet".toList "tide".toList = 50 ∧
    ¬ ∀ a b : Str, smRatio a b = smRatio b a := by
  refine ⟨fuzzRatio_comm, tokenSortRatio_comm, tokenSetRatio_comm, windowRatio_comm,
    nicknameScore_comm, initialScore_comm, by decide, by decide, ?_⟩
  intro h
  have hc := h "tide".toList "diet".toList
  rw [show smRatio "tide".toList "diet".toList = 25 by decide,
    show smRatio "diet".toList "tide".toList = 50 by decide] at hc
  exact absurd hc (by norm_num)

end

/-- C8 amended: an empty corpus and a corpus in which no record is
accepted both make find_and_return_all_matches return the same None
value, so the caller cannot distinguish "no data available" from "no
match found" by the returned value (the two cases differ only in log
output). -/
theorem c8_amended_both_none (nd : String → Option Int) (ne : String → Option (Str × Str))
    (np : String → Option Str) (mappings : List (String × SchemaMapping))
    (data : List (String × List Record)) (query : Query) (now : Int) :
    (data = [] → findAndReturnAllMatches nd ne np mappings data query now = none) ∧
    (findMatches nd ne np mappings query data = [] →
      findAndReturnAllMatches nd ne np mappings data query now = none) := by
  constructor
  · intro h
    unfold findAndReturnAllMatches
    rw [if_pos h]
  · intro h
    unfold findAndReturnAllMatches
    split
    · rfl
    · dsimp only
      rw [h]
      rfl

/-- C9 amended: with the clock reading passed in, every component of the
search result except the merge timestamp and the search timestamp is
independent of it — the ranked individual-match list, the summary and
the merged profile's base record, sources, match count and quality are
identical across runs; the merged profile as a whole is not, since
merged_at carries the clock (see the recorded counterexample). -/
theorem c9_amended_time_independent (nd : String → Option Int)
    (ne : String → Option (Str × Str)) (np : String → Option Str)
    (mappings : List (String × SchemaMapping)) (data : List (String × List Record))
    (query : Query) (t1 t2 : Int) :
    Option.map timeFree (findAndReturnAllMatches nd ne np mappings data query t1) =
      Option.map timeFree (findAndReturnAllMatches nd ne np mappings data query t2) := by
  unfold findAndReturnAllMatches
  split
  · rfl
  · dsimp only
    split
    · rfl
    · simp only [Option.map]
      congr 1
      unfold timeFree
      rcases mergeMatches_timeless (findMatches nd ne np mappings query data) t1 t2 with
        ⟨h1, h2, h3, h4⟩
      rw [h1, h2, h3, h4]

/-- Ten accepted matches, exactly one of them strong. -/
def capSampleOneStrong : List ScoredRecord :=
  [⟨[], 95, [], true, true⟩, ⟨[], 90, [], false, true⟩, ⟨[], 85, [], false, true⟩,
   ⟨[], 80, [], false, true⟩, ⟨[], 75, [], false, false⟩, ⟨[], 70, [], false, false⟩,
   ⟨[], 65, [], false, false⟩, ⟨[], 60, [], false, false⟩, ⟨[], 55, [], false, false⟩,
   ⟨[], 50, [], false, false⟩]

/-- Ten accepted matches, none of them strong. -/
def capSampleNoStrong : List ScoredRecord :=
  [⟨[], 95, [], false, true⟩, ⟨[], 90, [], false, true⟩, ⟨[], 85, [], false, true⟩,
   ⟨[], 80, [], false, true⟩, ⟨[], 75, [], false, false⟩, ⟨[], 70, [], false, false⟩,
   ⟨[], 65, [], false, false⟩, ⟨[], 60, [], false, false⟩, ⟨[], 55, [], false, false⟩,
   ⟨[], 50, [], false, false⟩]

section

attribute [local semireducible] Rat.mul Rat.inv Rat.add Rat.sub Rat.ofScientific

set_option maxRecDepth 8000

/-- Witness for C1: a concrete field-score map with a perfect
national_id score and a weak second field is classified strong. -/
theorem c1_witness :
    ([("national_id", (100 : ℚ)), ("phone", 3)] : FieldScores).lookup "national_id" =
      some 100 ∧
    isStrongMatch [("national_id", 100), ("phone", 3)] = true :=
  ⟨by decide, c1_perfect_id_always_strong [("national_id", 100), ("phone", 3)] (by decide)⟩

/-- Witness for C2: a concrete record whose national_id scores 100 is
accepted through the acceptance equivalence. -/
theorem c2_witness :
    acceptMatch (scoreRecord (fun _ => none) (fun _ => none) (fun _ => none) []
      [("national_id", "b1")] "s" [("national_id", "b1")]) = true :=
  ((c2_accept_iff (fun _ => none) (fun _ => none) (fun _ => none) []
      [("national_id", "b1")] "s" [("national_id", "b1")]).1).2
    (Or.inr (Or.inl (by decide)))

/-- Counterexample for C3: with both full_name and dob supplied and the
lenient perfect-dob pair holding, the gate accepts this map even though
three of its five scored fields are below 50 — more than half — so the
claimed conjunction with the low-score filter does not hold. -/
theorem c3_counterexample :
    meetsMinimumRequirements
      [("full_name", 100), ("dob", 100), ("email", 10), ("phone", 10), ("national_id", 10)]
      [("full_name", "ann smith"), ("dob", "1990-01-01")] = true ∧
    (1/2 : ℚ) <
      ((fsValues [("full_name", (100 : ℚ)), ("dob", 100), ("email", 10), ("phone", 10),
          ("national_id", 10)]).countP (fun s => decide (s < 50)) : ℚ) /
        (([("full_name", (100 : ℚ)), ("dob", 100), ("email", 10), ("phone", 10),
          ("national_id", 10)] : FieldScores).length : ℚ) ∧
    100 ≤ fsGetD [("full_name", (100 : ℚ)), ("dob", 100), ("email", 10), ("phone", 10),
      ("national_id", 10)] "dob" 0 ∧
    60 ≤ fsGetD [("full_name", (100 : ℚ)), ("dob", 100), ("email", 10), ("phone", 10),
      ("national_id", 10)] "full_name" 0 ∧
    queryTruthy [("full_name", "ann smith"), ("dob", "1990-01-01")] "full_name" = true ∧
    queryTruthy [("full_name", "ann smith"), ("dob", "1990-01-01")] "dob" = true := by
  decide

/-- Witness for C3's amended gate characterization at a concrete input:
the same map passes the gate, and the characterization shows it does so
through the lenient perfect-dob pair. -/
theorem c3_witness :
    meetsMinimumRequirements
      [("full_name", 100), ("dob", 100), ("email", 10), ("phone", 10), ("national_id", 10)]
      [("full_name", "ann smith"), ("dob", "1990-01-01")] = true :=
  (c3_amended_gate
      [("full_name", 100), ("dob", 100), ("email", 10), ("phone", 10), ("national_id", 10)]
      [("full_name", "ann smith"), ("dob", "1990-01-01")]).2
    ⟨by decide, by decide, Or.inl ⟨by decide, by decide, Or.inl ⟨by decide, by decide⟩⟩⟩

/-- Witness for C4: a query with no usable field yields an empty
field-score map and, through the theorem, overall score 0. -/
theorem c4_witness :
    (calculateMatchScore (fun _ => none) (fun _ => none) (fun _ => none) [] [] [] "s").2 = [] ∧
    (calculateMatchScore (fun _ => none) (fun _ => none) (fun _ => none) [] [] [] "s").1 = 0 :=
  ⟨by decide,
   (c4_overall_score_bounds (fun _ => none) (fun _ => none) (fun _ => none) [] [] [] "s").2.2.2.2
     (by decide)⟩

/-- Witness for C5: both quoted ten-match scenarios, with one strong
match and with none, retain exactly three results. -/
theorem c5_witness :
    capSampleOneStrong.length = 10 ∧
    (capSampleOneStrong.filter (fun m => m.isStrong)).length = 1 ∧
    (capSource capSampleOneStrong).length = 3 ∧
    capSampleNoStrong.length = 10 ∧
    (capSampleNoStrong.filter (fun m => m.isStrong)).length = 0 ∧
    (capSource capSampleNoStrong).length = 3 :=
  ⟨by decide, by decide,
   (c5_per_source_cap capSampleOneStrong).2.2.1 (by decide) (by decide),
   by decide, by decide,
   (c5_per_source_cap capSampleNoStrong).2.2.2 (by decide) (by decide)⟩

/-- Witness for C6: under a concrete normalizer, two dates one day apart
score 90. -/
theorem c6_witness :
    calculateDateScore
      (fun s => if s = "1990-01-01" then some 0 else if s = "1990-01-02" then some 1 else none)
      "1990-01-01" "1990-01-02" = 90 :=
  (c6_date_buckets
      (fun s => if s = "1990-01-01" then some 0 else if s = "1990-01-02" then some 1 else none)
      "1990-01-01" "1990-01-02" 0 1 (by decide) (by decide)).2.2.1 (by decide)

/-- Counterexample for C7: the name scorer is not symmetric — forward
the word-level average yields 97.5, backward the nickname path yields
95. -/
theorem c7_counterexample :
    calculateNameScore "john mary" "jack mary kate laura" = 195/2 ∧
    calculateNameScore "jack mary kate laura" "john mary" = 95 ∧
    calculateNameScore "john mary" "jack mary kate laura" ≠
      calculateNameScore "jack mary kate laura" "john mary" := by
  refine ⟨by decide, by decide, ?_⟩
  intro h
  rw [show calculateNameScore "john mary" "jack mary kate laura" = 195/2 by decide,
    show calculateNameScore "jack mary kate laura" "john mary" = 95 by decide] at h
  exact absurd h (by norm_num)

/-- Witness for C8: the empty corpus returns None through the theorem. -/
theorem c8_witness :
    findAndReturnAllMatches (fun _ => none) (fun _ => none) (fun _ => none) [] []
      [("full_name", "john doe")] 0 = none :=
  (c8_amended_both_none (fun _ => none) (fun _ => none) (fun _ => none) [] []
      [("full_name", "john doe")] 0).1 rfl

/-- Counterexample for C8: an empty corpus and a loaded corpus in which
no record is accepted return the very same None value, so the two
outcomes are equal, contradicting the claimed distinguishability. -/
theorem c8_counterexample :
    findAndReturnAllMatches (fun _ => none) (fun _ => none) (fun _ => none) []
        [] [("national_id", "abc")] 0 =
      findAndReturnAllMatches (fun _ => none) (fun _ => none) (fun _ => none) []
        [("src", [[("x", "y")]])] [("national_id", "abc")] 0 ∧
    findAndReturnAllMatches (fun _ => none) (fun _ => none) (fun _ => none) []
        [("src", [[("x", "y")]])] [("national_id", "abc")] 0 = none := by
  constructor
  · decide
  · decide

/-- Counterexample for C9: two runs over the identical query and corpus
at different clock readings produce different results — the merge and
search timestamps differ. -/
theorem c9_counterexample :
    findAndReturnAllMatches (fun _ => none) (fun _ => none) (fun _ => none) []
        [("s", [[("national_id", "b1")]])] [("national_id", "b1")] 0 ≠
      findAndReturnAllMatches (fun _ => none) (fun _ => none) (fun _ => none) []
        [("s", [[("national_id", "b1")]])] [("national_id", "b1")] 1 := by
  decide

/-- Witness for C10: a field outside the weight table contributes weight
0 and the guarded average returns 0. -/
theorem c10_witness : weightedAverage [("raw_text", 50)] = 0 :=
  c10_zero_weight_safe.2.1 [("raw_text", 50)] (by decide)

end

end Screening
